import Mathlib

/-!
# yt-playlist-categorizer: the fetch-and-aggregate pipeline

A shallow embedding of `backend/types.go`, `backend/youtube.go` and the
`/api/fetch-playlist` handler of `backend/main.go`.

Modelling conventions.

* A Go `map[string]T` is an association list with pairwise distinct keys;
  `m[k] = v` is `mapSet`, `v, ok := m[k]` is `mapGet?`, and `m[k]` on a
  `map[string]string` is `mapGet` (the zero value `""` when the key is missing).
* `for _, x := range xs { acc = append(acc, x) }` is a left fold appending one
  element at a time.
* The two remote endpoints are functions from the query of the request to what
  `client.Do` and the JSON decoder produce. Time-outs and cancelled contexts
  show up as a transport error of `client.Do`.
* The order in which `for k := range channelSet` visits the keys of a map is not
  fixed by Go; it is a parameter of the handler (`RangeOrder`).
* `fetchPlaylistItems` loops until a page without `nextPageToken` arrives, so
  its embedding takes a fuel argument and returns `none` when the fuel runs
  out before the loop ends.
-/

namespace YtPlaylist

/-! ## Go maps -/

/-- A Go `map[string]β`. -/
abbrev GoMap (β : Type) := List (String × β)

/-- The statement `m[k] = v`. -/
def mapSet {β : Type} : GoMap β → String → β → GoMap β
  | [], k, v => [(k, v)]
  | (k', v') :: rest, k, v =>
    if k' = k then (k, v) :: rest else (k', v') :: mapSet rest k v

/-- The two-valued lookup `v, ok := m[k]`. -/
def mapGet? {β : Type} (m : GoMap β) (k : String) : Option β :=
  (m.find? (fun e => decide (e.1 = k))).map Prod.snd

/-- The lookup `m[k]` on a `map[string]string`: `""` when `k` is missing. -/
def mapGet (m : GoMap String) (k : String) : String :=
  (mapGet? m k).getD ""

/-- The keys of a map, in the order of the association list. -/
def mapKeys {β : Type} (m : GoMap β) : List String :=
  m.map Prod.fst

/-- The order in which one `for k := range m` loop visits the keys of a map:
every key exactly once, in an order Go does not fix. -/
structure RangeOrder where
  visit : List String → List String
  perm : ∀ ks, (visit ks).Perm ks

/-- The range order that visits the keys in insertion order. -/
def RangeOrder.insertion : RangeOrder :=
  ⟨fun ks => ks, fun ks => List.Perm.refl ks⟩

/-- The range order that visits the keys in reverse insertion order. -/
def RangeOrder.reversed : RangeOrder :=
  ⟨fun ks => ks.reverse, fun ks => List.reverse_perm ks⟩

/-- The slice expression `xs[i:j]` (for `i ≤ j ≤ len(xs)`). -/
def slice {α : Type} (xs : List α) (i j : Nat) : List α :=
  (xs.drop i).take (j - i)

/-! ## types.go -/

structure Thumbnail where
  Url : String
  Width : Int
  Height : Int
deriving DecidableEq, Repr

structure PlaylistItemSnippet where
  PublishedAt : String
  ChannelId : String
  Title : String
  Description : String
  Thumbnails : GoMap Thumbnail
  ChannelTitle : String
  VideoOwnerChannelTitle : String
  VideoOwnerChannelId : String
  PlaylistId : String
  Position : Int
  ResourceId : GoMap String
deriving DecidableEq, Repr

structure ContentDetails where
  VideoId : String
deriving DecidableEq, Repr

structure PlaylistItemWrap where
  Snippet : PlaylistItemSnippet
  ContentDetails : ContentDetails
deriving DecidableEq, Repr

structure PlaylistItemsResponse where
  NextPageToken : String
  Items : List PlaylistItemWrap
deriving DecidableEq, Repr

structure ChannelSnippet where
  Title : String
  Description : String
deriving DecidableEq, Repr

structure ChannelItem where
  Id : String
  Snippet : ChannelSnippet
deriving DecidableEq, Repr

structure ChannelsResponse where
  Items : List ChannelItem
deriving DecidableEq, Repr

/-! ## The remote service -/

/-- What arrives for one HTTP request that `client.Do` completed: the status
code and the result of decoding the body into the expected type (`none` when
the body does not decode). -/
structure HttpResponse (α : Type) where
  StatusCode : Nat
  Body : Option α
deriving DecidableEq, Repr

/-- The result of `client.Do(req)`: a transport error or a response. -/
inductive DoResult (α : Type) where
  | err (cause : String)
  | resp (r : HttpResponse α)
deriving DecidableEq, Repr

/-- The query of a `playlistItems` request. `pageToken` is only set when the
cursor is not the empty string. -/
structure PageRequest where
  part : String
  playlistId : String
  maxResults : String
  key : String
  pageToken : Option String
deriving DecidableEq, Repr

/-- The query of a `channels` request. `ids` is the batch whose comma-joined
form is the `id` parameter on the wire; an endpoint that only sees the joined
string is a special case of a function of `ids`. -/
structure ChannelsRequest where
  part : String
  ids : List String
  key : String
deriving DecidableEq, Repr

/-- The two endpoints of the remote service in one fixed state. -/
structure Remote where
  playlistItems : PageRequest → DoResult PlaylistItemsResponse
  channels : ChannelsRequest → DoResult ChannelsResponse

/-- The errors built by `fetchPlaylistItems` and `fetchChannelDescriptions`. -/
inductive FetchError where
  | requestFailed (cause : String)
  | nonOK (status : Nat)
  | decodeFailed
deriving DecidableEq, Repr

/-- A reply that makes the caller return an error: transport error, a status
other than 200, or a body that does not decode. -/
def DoResult.failure {α : Type} : DoResult α → Option FetchError
  | .err cause => some (.requestFailed cause)
  | .resp r =>
    if r.StatusCode ≠ 200 then some (.nonOK r.StatusCode)
    else match r.Body with
      | none => some .decodeFailed
      | some _ => none

/-! ## youtube.go: fetchPlaylistItems -/

/-- The query built at the top of every iteration of the paging loop. -/
def pageRequest (apiKey playlistID pageToken : String) : PageRequest :=
  { part := "snippet,contentDetails"
    playlistId := playlistID
    maxResults := "50"
    key := apiKey
    pageToken := if pageToken ≠ "" then some pageToken else none }

/-- One run of `fetchPlaylistItems`: the requests issued with their replies, in
order, and the two return values. -/
structure ListerRun where
  exchanges : List (PageRequest × DoResult PlaylistItemsResponse)
  items : List PlaylistItemWrap
  err : Option FetchError
deriving DecidableEq, Repr

/-- The `for` loop of `fetchPlaylistItems`, from the state `pageToken`, `all`. -/
def fetchPlaylistItemsLoop (remote : Remote) (apiKey playlistID : String) :
    Nat → String → List PlaylistItemWrap →
    List (PageRequest × DoResult PlaylistItemsResponse) → Option ListerRun
  | 0, _, _, _ => none
  | fuel + 1, pageToken, all, log =>
    let req := pageRequest apiKey playlistID pageToken
    let reply := remote.playlistItems req
    let log' := log ++ [(req, reply)]
    match reply with
    | .err cause => some ⟨log', [], some (.requestFailed cause)⟩
    | .resp r =>
      if r.StatusCode ≠ 200 then some ⟨log', [], some (.nonOK r.StatusCode)⟩
      else match r.Body with
        | none => some ⟨log', [], some .decodeFailed⟩
        | some page =>
          let all' := page.Items.foldl (fun acc it => acc ++ [it]) all
          if page.NextPageToken = "" then some ⟨log', all', none⟩
          else fetchPlaylistItemsLoop remote apiKey playlistID fuel page.NextPageToken all' log'

/-- The function `fetchPlaylistItems`. -/
def fetchPlaylistItems (remote : Remote) (fuel : Nat) (apiKey playlistID : String) :
    Option ListerRun :=
  fetchPlaylistItemsLoop remote apiKey playlistID fuel "" [] []

/-! ## youtube.go: fetchChannelDescriptions -/

/-- One run of `fetchChannelDescriptions`. -/
structure ResolverRun where
  exchanges : List (ChannelsRequest × DoResult ChannelsResponse)
  out : GoMap String
  err : Option FetchError
deriving DecidableEq, Repr

/-- The query built by the closure `batch`. -/
def channelsRequest (apiKey : String) (ids : List String) : ChannelsRequest :=
  { part := "snippet", ids := ids, key := apiKey }

/-- The closure `batch`: one request for `ids`; on success the returned items are
written into `out`. Returns the reply, the new `out`, and the error. -/
def batch (remote : Remote) (apiKey : String) (out : GoMap String) (ids : List String) :
    DoResult ChannelsResponse × GoMap String × Option FetchError :=
  let reply := remote.channels (channelsRequest apiKey ids)
  match reply with
  | .err cause => (reply, out, some (.requestFailed cause))
  | .resp r =>
    if r.StatusCode ≠ 200 then (reply, out, some (.nonOK r.StatusCode))
    else match r.Body with
      | none => (reply, out, some .decodeFailed)
      | some cr =>
        (reply, cr.Items.foldl (fun o item => mapSet o item.Id item.Snippet.Description) out, none)

/-- The chunking loop `for i := 0; i < len(channelIDs); i += 50`, from the
state `i`, `out`. -/
def fetchChannelDescriptionsLoop (remote : Remote) (apiKey : String) (channelIDs : List String)
    (i : Nat) (out : GoMap String) (log : List (ChannelsRequest × DoResult ChannelsResponse)) :
    ResolverRun :=
  if i < channelIDs.length then
    let j := if i + 50 > channelIDs.length then channelIDs.length else i + 50
    let ids := slice channelIDs i j
    let r := batch remote apiKey out ids
    let log' := log ++ [(channelsRequest apiKey ids, r.1)]
    match r.2.2 with
    | some e => ⟨log', [], some e⟩
    | none => fetchChannelDescriptionsLoop remote apiKey channelIDs (i + 50) r.2.1 log'
  else ⟨log, out, none⟩
termination_by channelIDs.length - i
decreasing_by omega

/-- The function `fetchChannelDescriptions`. -/
def fetchChannelDescriptions (remote : Remote) (apiKey : String) (channelIDs : List String) :
    ResolverRun :=
  fetchChannelDescriptionsLoop remote apiKey channelIDs 0 [] []

/-! ## main.go: the `/api/fetch-playlist` handler -/

/-- Modelled from the spec: the generated protobuf message `pb.Video` (package
`proto`, not among the sources), with the six fields the handler assigns. -/
structure Video where
  VideoId : String
  Title : String
  ChannelId : String
  ChannelDescription : String
  PlaylistId : String
  Position : Int
deriving DecidableEq, Repr

/-- Modelled from the spec: the generated protobuf message `pb.ClusterRequest`
(package `proto`, not among the sources), with the three fields the handler assigns. -/
structure ClusterRequest where
  Strategy : String
  Params : GoMap String
  Videos : List Video
deriving DecidableEq, Repr

/-- The decoded request body. `FetchChannels` is a pointer and `Params` a map:
`none` stands for `nil`. -/
structure fetchPlaylistReq where
  PlaylistID : String
  Strategy : String
  FetchChannels : Option Bool
  Params : Option (GoMap String)
deriving DecidableEq, Repr

/-- The incoming HTTP request: its method and the result of decoding its body
(`none` when the decoder fails). -/
structure HttpRequest where
  Method : String
  Body : Option fetchPlaylistReq
deriving DecidableEq, Repr

/-- What the handler answers: `http.Error` with a status and a message, or the
assembled `ClusterRequest` handed to the serializer. `msg` is the fixed part of
the message; the text of the underlying error is not modelled. -/
inductive HandlerResponse where
  | error (status : Nat) (msg : String)
  | ok (creq : ClusterRequest)
deriving DecidableEq, Repr

/-- One run of the handler: the page requests and resolve requests issued, the
argument of the call to `fetchChannelDescriptions` (`none` when the call is not
made), and the answer. -/
structure HandlerRun where
  pageExchanges : List (PageRequest × DoResult PlaylistItemsResponse)
  resolverArg : Option (List String)
  batchExchanges : List (ChannelsRequest × DoResult ChannelsResponse)
  response : HandlerResponse
deriving DecidableEq, Repr

/-- The uploader id of an item: `VideoOwnerChannelId`, or `ChannelId` when that
is empty (main.go computes it this way in both of its loops). -/
def uploaderID (it : PlaylistItemWrap) : String :=
  let uid := it.Snippet.VideoOwnerChannelId
  if uid = "" then it.Snippet.ChannelId else uid

/-- The first loop of the handler: the set of non-empty uploader ids. -/
def channelSet (items : List PlaylistItemWrap) : GoMap Unit :=
  items.foldl (fun set it =>
    let uid := uploaderID it
    if uid ≠ "" then mapSet set uid () else set) []

/-- The second loop of the handler: the keys of `channelSet`, in range order. -/
def channelIDs (ord : RangeOrder) (items : List PlaylistItemWrap) : List String :=
  (ord.visit (mapKeys (channelSet items))).foldl (fun acc k => acc ++ [k]) []

/-- The body of the join loop: the `pb.Video` built from one item. -/
def video (channelDescMap : GoMap String) (it : PlaylistItemWrap) : Video :=
  let videoID := it.ContentDetails.VideoId
  let videoID :=
    if videoID = "" then
      match mapGet? it.Snippet.ResourceId "videoId" with
      | some v => v
      | none => videoID
    else videoID
  let uploaderID := uploaderID it
  let chDesc := if uploaderID ≠ "" then mapGet channelDescMap uploaderID else ""
  { VideoId := videoID
    Title := it.Snippet.Title
    ChannelId := uploaderID
    ChannelDescription := chDesc
    PlaylistId := it.Snippet.PlaylistId
    Position := it.Snippet.Position }

/-- The join loop `for _, it := range items` that fills `creq.Videos`. -/
def joinVideos (channelDescMap : GoMap String) (items : List PlaylistItemWrap) : List Video :=
  items.foldl (fun videos it => videos ++ [video channelDescMap it]) []

/-- The selection of `channelDescMap`: the argument handed to
`fetchChannelDescriptions` (if it is called), the resolve requests issued, and
the mapping used by the join. -/
def selectChannelDescMap (remote : Remote) (apiKey : String) (fetchChannels : Bool)
    (channelIDs : List String) :
    Option (List String) × List (ChannelsRequest × DoResult ChannelsResponse) × GoMap String :=
  if fetchChannels = true ∧ channelIDs.length > 0 then
    let rr := fetchChannelDescriptions remote apiKey channelIDs
    match rr.err with
    | some _ => (some channelIDs, rr.exchanges, [])
    | none => (some channelIDs, rr.exchanges, rr.out)
  else (none, [], [])

/-- The local `strategy`: `"hdbscan"` unless the request names one. -/
def strategy (reqBody : fetchPlaylistReq) : String :=
  if reqBody.Strategy ≠ "" then reqBody.Strategy else "hdbscan"

/-- The local `fetchChannels`: `true` unless the request carries a value. -/
def fetchChannels (reqBody : fetchPlaylistReq) : Bool :=
  match reqBody.FetchChannels with
  | some b => b
  | none => true

/-- The local `params`: the two default weights when the request map is `nil`. -/
def params (reqBody : fetchPlaylistReq) : GoMap String :=
  match reqBody.Params with
  | some p => p
  | none => [("title_weight", "0.8"), ("channel_weight", "0.2")]

/-- The handler of `/api/fetch-playlist`, up to the point where `creq` is handed
to `protojson`; the serialization itself is not modelled. The result is `none`
exactly when the paging loop of `fetchPlaylistItems` does not end within `fuel`
iterations. -/
def handler (remote : Remote) (apiKey : String) (ord : RangeOrder) (fuel : Nat)
    (r : HttpRequest) : Option HandlerRun :=
  if r.Method ≠ "POST" then some ⟨[], none, [], .error 405 "only POST allowed"⟩
  else match r.Body with
    | none => some ⟨[], none, [], .error 400 "bad request"⟩
    | some reqBody =>
      if reqBody.PlaylistID = "" then some ⟨[], none, [], .error 400 "playlistId required"⟩
      else
        match fetchPlaylistItems remote fuel apiKey reqBody.PlaylistID with
        | none => none
        | some lr =>
          match lr.err with
          | some _ => some ⟨lr.exchanges, none, [], .error 500 "failed fetch playlist"⟩
          | none =>
            let items := lr.items
            let ids := channelIDs ord items
            let sel := selectChannelDescMap remote apiKey (fetchChannels reqBody) ids
            let creq : ClusterRequest :=
              { Strategy := strategy reqBody
                Params := params reqBody
                Videos := joinVideos sel.2.2 items }
            some ⟨lr.exchanges, sel.1, sel.2.1, .ok creq⟩

/-! ## Predicates on the remote service used by the statements -/

/-- From cursor `c`, the listing endpoint serves the pages `pages` one after the
other, each with status 200 and a non-empty `nextPageToken`, and the token of
the last of them (or `c` itself when `pages` is empty) is `c'`. -/
def PagesServed (remote : Remote) (apiKey playlistID : String) :
    String → List PlaylistItemsResponse → String → Prop
  | c, [], c' => c = c'
  | c, p :: ps, c' =>
    remote.playlistItems (pageRequest apiKey playlistID c) = .resp ⟨200, some p⟩ ∧
    p.NextPageToken ≠ "" ∧ PagesServed remote apiKey playlistID p.NextPageToken ps c'

/-- The exchanges of a listing that starts at cursor `c` and receives `pages`. -/
def servedExchanges (apiKey playlistID : String) :
    String → List PlaylistItemsResponse → List (PageRequest × DoResult PlaylistItemsResponse)
  | _, [] => []
  | c, p :: ps =>
    (pageRequest apiKey playlistID c, .resp ⟨200, some p⟩) ::
      servedExchanges apiKey playlistID p.NextPageToken ps

/-- The page a reply carries: the decoded body of a reply with status 200. -/
def DoResult.page? {α : Type} : DoResult α → Option α
  | .err _ => none
  | .resp r => if r.StatusCode ≠ 200 then none else r.Body

/-- The listing pages retrieved in a sequence of page exchanges. -/
def retrievedPages (exchanges : List (PageRequest × DoResult PlaylistItemsResponse)) :
    List PlaylistItemsResponse :=
  exchanges.filterMap (fun x => x.2.page?)

/-- The slice handed to `batch` by the iteration of the chunking loop that
starts at index `i`. -/
def chunkAt (channelIDs : List String) (i : Nat) : List String :=
  slice channelIDs i (if i + 50 > channelIDs.length then channelIDs.length else i + 50)

/-- The reply of the resolve endpoint to the request for the slice at index `i`. -/
def chunkReply (remote : Remote) (apiKey : String) (channelIDs : List String) (i : Nat) :
    DoResult ChannelsResponse :=
  remote.channels (channelsRequest apiKey (chunkAt channelIDs i))

/-- The chunking loop unrolled `m` times from its `k`-th iteration. -/
def resolveFrom (remote : Remote) (apiKey : String) (channelIDs : List String) :
    Nat → Nat → GoMap String → List (ChannelsRequest × DoResult ChannelsResponse) → ResolverRun
  | 0, _, out, log => ⟨log, out, none⟩
  | m + 1, k, out, log =>
    let ids := chunkAt channelIDs (50 * k)
    let r := batch remote apiKey out ids
    let log' := log ++ [(channelsRequest apiKey ids, r.1)]
    match r.2.2 with
    | some e => ⟨log', [], some e⟩
    | none => resolveFrom remote apiKey channelIDs m (k + 1) r.2.1 log'

/-- The exchange of the chunking loop for its `j`-th chunk. -/
def chunkExchange (remote : Remote) (apiKey : String) (channelIDs : List String) (j : Nat) :
    ChannelsRequest × DoResult ChannelsResponse :=
  (channelsRequest apiKey (chunkAt channelIDs (50 * j)), chunkReply remote apiKey channelIDs (50 * j))

/-- The resolve endpoint, in a fixed state `db` (identifier to description, for
the identifiers the service recognises), answers the batch `ids` with status
200 and descriptors of exactly the recognised identifiers of that batch. -/
def AnswersFrom (remote : Remote) (apiKey : String) (db : String → Option String)
    (ids : List String) : Prop :=
  ∃ cr : ChannelsResponse,
    remote.channels (channelsRequest apiKey ids) = .resp ⟨200, some cr⟩ ∧
    (∀ item ∈ cr.Items, item.Id ∈ ids ∧ db item.Id = some item.Snippet.Description) ∧
    (∀ id ∈ ids, (db id).isSome = true → ∃ item ∈ cr.Items, item.Id = id)

/-- The resolve endpoint answers from `db` every batch that the chunking loop
sends for the identifier list `channelIDs`: the slices at `0, 50, 100, ...`.
Nothing is asked of its answers to any other request. -/
def ResolvesFrom (remote : Remote) (apiKey : String) (db : String → Option String)
    (channelIDs : List String) : Prop :=
  ∀ k, 50 * k < channelIDs.length → AnswersFrom remote apiKey db (chunkAt channelIDs (50 * k))

/-- The resolve endpoint answers from `db` every batch that the handler sends
for the request `r` when the identifier set is enumerated in the order `ord`:
the chunks of `channelIDs`, on the path where the request is accepted, the
listing ends without error and enrichment is requested. -/
def BatchesResolved (remote : Remote) (apiKey : String) (db : String → Option String)
    (ord : RangeOrder) (fuel : Nat) (r : HttpRequest) : Prop :=
  ∀ reqBody lr, r.Method = "POST" → r.Body = some reqBody → reqBody.PlaylistID ≠ "" →
    fetchPlaylistItems remote fuel apiKey reqBody.PlaylistID = some lr → lr.err = none →
    fetchChannels reqBody = true →
    ResolvesFrom remote apiKey db (channelIDs ord lr.items)

/-! ## The join step as the specification words it -/

/-- The item key of a listed item: `contentDetails.videoId` if non-empty, else
`snippet.resourceId["videoId"]` if that key is present, else empty. -/
def specItemKey (it : PlaylistItemWrap) : String :=
  if it.ContentDetails.VideoId ≠ "" then it.ContentDetails.VideoId
  else match mapGet? it.Snippet.ResourceId "videoId" with
    | some v => v
    | none => ""

/-- The owner key of a listed item: `snippet.videoOwnerChannelId` if non-empty,
else `snippet.channelId`. -/
def specOwnerKey (it : PlaylistItemWrap) : String :=
  if it.Snippet.VideoOwnerChannelId ≠ "" then it.Snippet.VideoOwnerChannelId
  else it.Snippet.ChannelId

/-- The owner description: the value of the mapping at the owner key if the key
is non-empty and present in the mapping, else the empty string. -/
def specOwnerDescription (m : GoMap String) (ownerKey : String) : String :=
  match mapGet? m ownerKey with
  | some d => if ownerKey ≠ "" then d else ""
  | none => ""

/-- The enriched item built from one listed item and the resolver mapping. -/
def specEnrichedItem (m : GoMap String) (it : PlaylistItemWrap) : Video :=
  { VideoId := specItemKey it
    Title := it.Snippet.Title
    ChannelId := specOwnerKey it
    ChannelDescription := specOwnerDescription m (specOwnerKey it)
    PlaylistId := it.Snippet.PlaylistId
    Position := it.Snippet.Position }

/-- The video of a listed item when the owner descriptions come from the remote
state `db`: the enriched item, with the description of its owner key in `db`
when enrichment is requested (`fc`) and the key is non-empty and recognised. -/
def resolvedVideo (fc : Bool) (db : String → Option String) (it : PlaylistItemWrap) : Video :=
  { specEnrichedItem [] it with
    ChannelDescription :=
      if fc = true ∧ specOwnerKey it ≠ "" then (db (specOwnerKey it)).getD "" else "" }

/-! ## Sample data -/

/-- A listed item with the given owner, editor and video id. -/
def sampleItem (owner editor videoId : String) (position : Int) : PlaylistItemWrap :=
  { Snippet :=
      { PublishedAt := ""
        ChannelId := editor
        Title := "a title"
        Description := ""
        Thumbnails := []
        ChannelTitle := ""
        VideoOwnerChannelTitle := ""
        VideoOwnerChannelId := owner
        PlaylistId := "PL"
        Position := position
        ResourceId := [("kind", "video"), ("videoId", videoId)] }
    ContentDetails := ⟨videoId⟩ }

/-- A first page of 50 items, with cursor `T1` to the next page. -/
def samplePage1 : PlaylistItemsResponse :=
  ⟨"T1", List.replicate 50 (sampleItem "UC1" "UC0" "v1" 0)⟩

/-- A second page of 50 items, with cursor `T2` to the next page. -/
def samplePage2 : PlaylistItemsResponse :=
  ⟨"T2", List.replicate 50 (sampleItem "UC2" "UC0" "v2" 1)⟩

/-- A last page of 7 items without owner, and no further cursor. -/
def samplePage3 : PlaylistItemsResponse :=
  ⟨"", List.replicate 7 (sampleItem "" "" "v3" 2)⟩

/-- A listing endpoint that serves the three sample pages. -/
def sampleListing (req : PageRequest) : DoResult PlaylistItemsResponse :=
  match req.pageToken with
  | none => .resp ⟨200, some samplePage1⟩
  | some t =>
    if t = "T1" then .resp ⟨200, some samplePage2⟩
    else if t = "T2" then .resp ⟨200, some samplePage3⟩
    else .resp ⟨404, none⟩

/-- A listing endpoint that serves the first sample page and then answers 503. -/
def brokenListing (req : PageRequest) : DoResult PlaylistItemsResponse :=
  match req.pageToken with
  | none => .resp ⟨200, some samplePage1⟩
  | some _ => .resp ⟨503, none⟩

/-- The owners the sample resolve endpoint recognises. -/
def sampleDb (id : String) : Option String :=
  if id = "UC1" then some "first owner" else if id = "UC2" then some "second owner" else none

/-- A resolve endpoint that answers from `sampleDb`. -/
def sampleChannels (req : ChannelsRequest) : DoResult ChannelsResponse :=
  .resp ⟨200, some ⟨req.ids.filterMap (fun id => (sampleDb id).map (fun d => ⟨id, ⟨"", d⟩⟩))⟩⟩

/-- The sample remote service. -/
def sampleRemote : Remote := ⟨sampleListing, sampleChannels⟩

/-- The sample remote service with a listing that fails on its second page. -/
def sampleRemoteListingFails : Remote := ⟨brokenListing, sampleChannels⟩

/-- The sample remote service with a resolve endpoint that times out. -/
def sampleRemoteResolverFails : Remote := ⟨sampleListing, fun _ => .err "timeout"⟩

/-- A POST request for the sample playlist. -/
def sampleRequest (fc : Option Bool) (ps : Option (GoMap String)) : HttpRequest :=
  ⟨"POST", some ⟨"PL", "", fc, ps⟩⟩

/-- A list of 120 pairwise distinct identifiers. -/
def sampleIDs120 : List String :=
  (List.range 120).map (fun i => String.mk (List.replicate (i + 1) 'c'))

/-- Sixty pairwise distinct owner identifiers. -/
def wideOwners : List String :=
  (List.range 60).map (fun i => String.mk [Char.ofNat (97 + i / 8), Char.ofNat (97 + i % 8)])

/-- A single page of sixty items, each with its own owner. -/
def widePage : PlaylistItemsResponse :=
  ⟨"", wideOwners.map (fun o => sampleItem o "UC0" "v" 0)⟩

/-- A listing endpoint that serves `widePage`. -/
def wideListing (req : PageRequest) : DoResult PlaylistItemsResponse :=
  match req.pageToken with
  | none => .resp ⟨200, some widePage⟩
  | some _ => .resp ⟨404, none⟩

/-- The owners a remote state recognises: those whose identifier ends in `a`,
`c`, `e` or `g`. -/
def wideDb (id : String) : Option String :=
  if id.length = 2 ∧ (id.back.toNat - 97) % 2 = 0 then some "known owner" else none

/-- A resolve endpoint that accepts between 1 and 50 identifiers per request,
answers 400 to any other request, and otherwise answers from `db`. -/
def boundedChannels (db : String → Option String) (req : ChannelsRequest) :
    DoResult ChannelsResponse :=
  if req.ids.length = 0 ∨ 50 < req.ids.length then .resp ⟨400, none⟩
  else .resp ⟨200, some ⟨req.ids.filterMap (fun id => (db id).map (fun d => ⟨id, ⟨"", d⟩⟩))⟩⟩

/-- The remote service with sixty owners and a bounded resolve endpoint. -/
def wideRemote : Remote := ⟨wideListing, boundedChannels wideDb⟩

/-- Four listed items: two that share an owner, one without owner or editor,
and one whose owner falls back to the editor and whose video id falls back to
the resource reference. -/
def sampleItems : List PlaylistItemWrap :=
  [ sampleItem "UC1" "UC0" "v1" 0,
    sampleItem "UC1" "UC0" "v2" 1,
    sampleItem "" "" "v3" 2,
    { sampleItem "" "UC0" "v4" 3 with ContentDetails := ⟨""⟩ } ]

/-! ## Lemmas on loops and maps -/

theorem foldl_append_map {α β : Type} (f : α → β) (xs : List α) (init : List β) :
    xs.foldl (fun acc x => acc ++ [f x]) init = init ++ xs.map f := by
  induction xs generalizing init with
  | nil => simp
  | cons x xs ih => simp [ih]

theorem foldl_append_id {α : Type} (xs : List α) (init : List α) :
    xs.foldl (fun acc x => acc ++ [x]) init = init ++ xs := by
  simpa using foldl_append_map (fun x : α => x) xs init

/-! ## fetchPlaylistItems -/

theorem lister_step_ok_more (remote : Remote) (apiKey pid : String) (fuel : Nat) (c : String)
    (all : List PlaylistItemWrap) (log : List (PageRequest × DoResult PlaylistItemsResponse))
    (p : PlaylistItemsResponse)
    (h : remote.playlistItems (pageRequest apiKey pid c) = .resp ⟨200, some p⟩)
    (hne : p.NextPageToken ≠ "") :
    fetchPlaylistItemsLoop remote apiKey pid (fuel + 1) c all log =
      fetchPlaylistItemsLoop remote apiKey pid fuel p.NextPageToken (all ++ p.Items)
        (log ++ [(pageRequest apiKey pid c, .resp ⟨200, some p⟩)]) := by
  simp [fetchPlaylistItemsLoop, h, hne, foldl_append_id]

theorem lister_step_ok_last (remote : Remote) (apiKey pid : String) (fuel : Nat) (c : String)
    (all : List PlaylistItemWrap) (log : List (PageRequest × DoResult PlaylistItemsResponse))
    (p : PlaylistItemsResponse)
    (h : remote.playlistItems (pageRequest apiKey pid c) = .resp ⟨200, some p⟩)
    (he : p.NextPageToken = "") :
    fetchPlaylistItemsLoop remote apiKey pid (fuel + 1) c all log =
      some ⟨log ++ [(pageRequest apiKey pid c, .resp ⟨200, some p⟩)], all ++ p.Items, none⟩ := by
  simp [fetchPlaylistItemsLoop, h, he, foldl_append_id]

theorem lister_step_fail (remote : Remote) (apiKey pid : String) (fuel : Nat) (c : String)
    (all : List PlaylistItemWrap) (log : List (PageRequest × DoResult PlaylistItemsResponse))
    (e : FetchError)
    (h : (remote.playlistItems (pageRequest apiKey pid c)).failure = some e) :
    fetchPlaylistItemsLoop remote apiKey pid (fuel + 1) c all log =
      some ⟨log ++ [(pageRequest apiKey pid c, remote.playlistItems (pageRequest apiKey pid c))],
        [], some e⟩ := by
  simp only [fetchPlaylistItemsLoop]
  generalize remote.playlistItems (pageRequest apiKey pid c) = reply at h ⊢
  cases reply with
  | err cause =>
    simp only [DoResult.failure, Option.some.injEq] at h
    simp [h]
  | resp r =>
    simp only [DoResult.failure] at h
    by_cases hs : r.StatusCode = 200
    · cases hb : r.Body with
      | none => simpa [hs, hb] using h
      | some page => simp [hs, hb] at h
    · simpa [hs] using h

theorem lister_chain (remote : Remote) (apiKey pid : String) (pre : List PlaylistItemsResponse) :
    ∀ (c c' : String) (fuel : Nat) (all : List PlaylistItemWrap)
      (log : List (PageRequest × DoResult PlaylistItemsResponse)),
      PagesServed remote apiKey pid c pre c' →
      fetchPlaylistItemsLoop remote apiKey pid (pre.length + fuel) c all log =
        fetchPlaylistItemsLoop remote apiKey pid fuel c'
          (all ++ (pre.map (fun p => p.Items)).flatten) (log ++ servedExchanges apiKey pid c pre) := by
  induction pre with
  | nil =>
    intro c c' fuel all log h
    simp only [PagesServed] at h
    subst h
    simp [servedExchanges]
  | cons p ps ih =>
    intro c c' fuel all log h
    obtain ⟨h1, h2, h3⟩ := h
    have hlen : (p :: ps).length + fuel = (ps.length + fuel) + 1 := by simp; omega
    rw [hlen, lister_step_ok_more remote apiKey pid _ c all log p h1 h2, ih _ _ _ _ _ h3]
    simp [servedExchanges]

theorem page?_resp_ok {α : Type} (p : α) :
    (DoResult.resp ⟨200, some p⟩ : DoResult α).page? = some p := rfl

theorem retrievedPages_cons_ok (req : PageRequest) (p : PlaylistItemsResponse)
    (tail : List (PageRequest × DoResult PlaylistItemsResponse)) :
    retrievedPages ((req, .resp ⟨200, some p⟩) :: tail) = p :: retrievedPages tail := by
  simp [retrievedPages, List.filterMap_cons, page?_resp_ok]

theorem retrievedPages_servedExchanges (apiKey pid : String) (pages : List PlaylistItemsResponse) :
    ∀ c, retrievedPages (servedExchanges apiKey pid c pages) = pages := by
  induction pages with
  | nil => intro c; rfl
  | cons p ps ih =>
    intro c
    rw [servedExchanges, retrievedPages_cons_ok, ih]

theorem lister_items_invariant (remote : Remote) (apiKey pid : String) :
    ∀ (fuel : Nat) (c : String) (all : List PlaylistItemWrap)
      (log : List (PageRequest × DoResult PlaylistItemsResponse)) (run : ListerRun),
      fetchPlaylistItemsLoop remote apiKey pid fuel c all log = some run → run.err = none →
      ∃ tail, run.exchanges = log ++ tail ∧
        run.items = all ++ ((retrievedPages tail).map (fun p => p.Items)).flatten := by
  intro fuel
  induction fuel with
  | zero => intro c all log run h; simp [fetchPlaylistItemsLoop] at h
  | succ fuel ih =>
    intro c all log run h herr
    cases hf : (remote.playlistItems (pageRequest apiKey pid c)).failure with
    | some e =>
      rw [lister_step_fail remote apiKey pid fuel c all log e hf] at h
      simp only [Option.some.injEq] at h
      subst h
      simp at herr
    | none =>
      cases hr : remote.playlistItems (pageRequest apiKey pid c) with
      | err cause => simp [hr, DoResult.failure] at hf
      | resp r =>
        obtain ⟨code, body⟩ := r
        have hcode : code = 200 := by
          by_contra hne
          simp [hr, DoResult.failure, hne] at hf
        subst hcode
        cases body with
        | none => simp [hr, DoResult.failure] at hf
        | some p =>
          by_cases hne : p.NextPageToken = ""
          · rw [lister_step_ok_last remote apiKey pid fuel c all log p hr hne] at h
            simp only [Option.some.injEq] at h
            subst h
            exact ⟨[(pageRequest apiKey pid c, .resp ⟨200, some p⟩)], rfl,
              by rw [retrievedPages_cons_ok]; simp [retrievedPages]⟩
          · rw [lister_step_ok_more remote apiKey pid fuel c all log p hr hne] at h
            obtain ⟨tail, h1, h2⟩ := ih _ _ _ run h herr
            exact ⟨(pageRequest apiKey pid c, .resp ⟨200, some p⟩) :: tail, by simp [h1],
              by rw [retrievedPages_cons_ok]; simp [h2]⟩

/-! ## The handler, case by case -/

theorem handler_of_lister_error (remote : Remote) (apiKey : String) (ord : RangeOrder) (fuel : Nat)
    (r : HttpRequest) (reqBody : fetchPlaylistReq) (lr : ListerRun) (e : FetchError)
    (hm : r.Method = "POST") (hb : r.Body = some reqBody) (hid : reqBody.PlaylistID ≠ "")
    (hl : fetchPlaylistItems remote fuel apiKey reqBody.PlaylistID = some lr)
    (he : lr.err = some e) :
    handler remote apiKey ord fuel r =
      some ⟨lr.exchanges, none, [], .error 500 "failed fetch playlist"⟩ := by
  simp [handler, hm, hb, hid, hl, he]

theorem handler_of_lister_ok (remote : Remote) (apiKey : String) (ord : RangeOrder) (fuel : Nat)
    (r : HttpRequest) (reqBody : fetchPlaylistReq) (lr : ListerRun)
    (hm : r.Method = "POST") (hb : r.Body = some reqBody) (hid : reqBody.PlaylistID ≠ "")
    (hl : fetchPlaylistItems remote fuel apiKey reqBody.PlaylistID = some lr)
    (he : lr.err = none) :
    handler remote apiKey ord fuel r =
      some ⟨lr.exchanges,
        (selectChannelDescMap remote apiKey (fetchChannels reqBody) (channelIDs ord lr.items)).1,
        (selectChannelDescMap remote apiKey (fetchChannels reqBody) (channelIDs ord lr.items)).2.1,
        .ok ⟨strategy reqBody, params reqBody,
          joinVideos
            (selectChannelDescMap remote apiKey (fetchChannels reqBody)
              (channelIDs ord lr.items)).2.2 lr.items⟩⟩ := by
  simp [handler, hm, hb, hid, hl, he]

/-- Every run of the handler that answers with a `ClusterRequest` went through
a listing without error, and is determined by it. -/
theorem handler_ok_inv (remote : Remote) (apiKey : String) (ord : RangeOrder) (fuel : Nat)
    (r : HttpRequest) (run : HandlerRun) (creq : ClusterRequest)
    (h : handler remote apiKey ord fuel r = some run) (hok : run.response = .ok creq) :
    ∃ reqBody lr, r.Method = "POST" ∧ r.Body = some reqBody ∧ reqBody.PlaylistID ≠ "" ∧
      fetchPlaylistItems remote fuel apiKey reqBody.PlaylistID = some lr ∧ lr.err = none := by
  by_cases hm : r.Method = "POST"
  · cases hb : r.Body with
    | none =>
      simp [handler, hm, hb] at h
      subst h
      simp at hok
    | some reqBody =>
      by_cases hid : reqBody.PlaylistID = ""
      · simp [handler, hm, hb, hid] at h
        subst h
        simp at hok
      · cases hl : fetchPlaylistItems remote fuel apiKey reqBody.PlaylistID with
        | none => simp [handler, hm, hb, hid, hl] at h
        | some lr =>
          cases he : lr.err with
          | some e =>
            rw [handler_of_lister_error remote apiKey ord fuel r reqBody lr e hm hb hid hl he] at h
            simp only [Option.some.injEq] at h
            subst h
            simp at hok
          | none => exact ⟨reqBody, lr, hm, rfl, hid, hl, he⟩
  · simp [handler, hm] at h
    subst h
    simp at hok

/-! ## fetchChannelDescriptions -/

theorem batch_fst (remote : Remote) (apiKey : String) (out : GoMap String) (ids : List String) :
    (batch remote apiKey out ids).1 = remote.channels (channelsRequest apiKey ids) := by
  simp only [batch]
  split
  · rfl
  · split
    · rfl
    · split <;> rfl

theorem batch_err (remote : Remote) (apiKey : String) (out : GoMap String) (ids : List String) :
    (batch remote apiKey out ids).2.2 = (remote.channels (channelsRequest apiKey ids)).failure := by
  simp only [batch]
  generalize remote.channels (channelsRequest apiKey ids) = reply
  cases reply with
  | err cause => rfl
  | resp r =>
    obtain ⟨code, body⟩ := r
    by_cases hc : code = 200
    · cases body <;> simp [DoResult.failure, hc]
    · simp [DoResult.failure, hc]

theorem batch_out_ok (remote : Remote) (apiKey : String) (out : GoMap String) (ids : List String)
    (cr : ChannelsResponse)
    (h : remote.channels (channelsRequest apiKey ids) = .resp ⟨200, some cr⟩) :
    (batch remote apiKey out ids).2.1 =
      cr.Items.foldl (fun o item => mapSet o item.Id item.Snippet.Description) out := by
  simp [batch, h]

theorem failure_none_iff {α : Type} (reply : DoResult α) :
    reply.failure = none ↔ ∃ body, reply = .resp ⟨200, some body⟩ := by
  cases reply with
  | err cause => simp [DoResult.failure]
  | resp r =>
    obtain ⟨code, body⟩ := r
    by_cases hc : code = 200
    · subst hc
      cases body <;> simp [DoResult.failure]
    · simp [DoResult.failure, hc]

/-- The chunking loop from index `50 * k` is its unrolling for the number of
chunks that remain. -/
theorem resolver_loop_eq (remote : Remote) (apiKey : String) (channelIDs : List String) :
    ∀ (m k : Nat) (out : GoMap String) (log : List (ChannelsRequest × DoResult ChannelsResponse)),
      (channelIDs.length + 49) / 50 - k = m →
      fetchChannelDescriptionsLoop remote apiKey channelIDs (50 * k) out log =
        resolveFrom remote apiKey channelIDs m k out log := by
  intro m
  induction m with
  | zero =>
    intro k out log hm
    have hk : ¬ 50 * k < channelIDs.length := by omega
    rw [fetchChannelDescriptionsLoop, if_neg hk]
    rfl
  | succ m ih =>
    intro k out log hm
    have hk : 50 * k < channelIDs.length := by omega
    rw [fetchChannelDescriptionsLoop, if_pos hk]
    simp only [resolveFrom, chunkAt]
    cases he : (batch remote apiKey out (slice channelIDs (50 * k)
        (if 50 * k + 50 > channelIDs.length then channelIDs.length else 50 * k + 50))).2.2 with
    | some e => rfl
    | none =>
      have h50 : 50 * k + 50 = 50 * (k + 1) := by ring
      rw [h50, ih (k + 1) _ _ (by omega)]

theorem resolver_eq (remote : Remote) (apiKey : String) (channelIDs : List String) :
    fetchChannelDescriptions remote apiKey channelIDs =
      resolveFrom remote apiKey channelIDs ((channelIDs.length + 49) / 50) 0 [] [] := by
  have := resolver_loop_eq remote apiKey channelIDs ((channelIDs.length + 49) / 50) 0 [] [] rfl
  simpa [fetchChannelDescriptions] using this

theorem resolveFrom_step_fail (remote : Remote) (apiKey : String) (channelIDs : List String)
    (m k : Nat) (out : GoMap String) (log : List (ChannelsRequest × DoResult ChannelsResponse))
    (e : FetchError) (h : (chunkReply remote apiKey channelIDs (50 * k)).failure = some e) :
    resolveFrom remote apiKey channelIDs (m + 1) k out log =
      ⟨log ++ [chunkExchange remote apiKey channelIDs k], [], some e⟩ := by
  have he : (batch remote apiKey out (chunkAt channelIDs (50 * k))).2.2 = some e := by
    rw [batch_err]; exact h
  simp only [resolveFrom, he, batch_fst, chunkExchange, chunkReply]

theorem resolveFrom_step_ok (remote : Remote) (apiKey : String) (channelIDs : List String)
    (m k : Nat) (out : GoMap String) (log : List (ChannelsRequest × DoResult ChannelsResponse))
    (h : (chunkReply remote apiKey channelIDs (50 * k)).failure = none) :
    resolveFrom remote apiKey channelIDs (m + 1) k out log =
      resolveFrom remote apiKey channelIDs m (k + 1)
        (batch remote apiKey out (chunkAt channelIDs (50 * k))).2.1
        (log ++ [chunkExchange remote apiKey channelIDs k]) := by
  have he : (batch remote apiKey out (chunkAt channelIDs (50 * k))).2.2 = none := by
    rw [batch_err]; exact h
  simp only [resolveFrom, he, batch_fst, chunkExchange, chunkReply]

/-- When the chunks `k .. k + m - 1` all succeed, the unrolled loop requests
each of them, in order, and returns without error. -/
theorem resolveFrom_all_ok (remote : Remote) (apiKey : String) (channelIDs : List String) :
    ∀ (m k : Nat) (out : GoMap String) (log : List (ChannelsRequest × DoResult ChannelsResponse)),
      (∀ j, k ≤ j → j < k + m → (chunkReply remote apiKey channelIDs (50 * j)).failure = none) →
      (resolveFrom remote apiKey channelIDs m k out log).err = none ∧
      (resolveFrom remote apiKey channelIDs m k out log).exchanges =
        log ++ (List.range' k m).map (chunkExchange remote apiKey channelIDs) := by
  intro m
  induction m with
  | zero => intro k out log _; simp [resolveFrom]
  | succ m ih =>
    intro k out log h
    rw [resolveFrom_step_ok remote apiKey channelIDs m k out log (h k (le_refl k) (by omega))]
    obtain ⟨h1, h2⟩ := ih (k + 1) (batch remote apiKey out (chunkAt channelIDs (50 * k))).2.1
      (log ++ [chunkExchange remote apiKey channelIDs k]) (fun j hj1 hj2 => h j (by omega) (by omega))
    refine ⟨h1, ?_⟩
    rw [h2]
    simp [List.range'_succ]

/-- When some chunk among `k .. k + m - 1` fails, the unrolled loop stops at the
first failing chunk `j` and returns that error with a `nil` map. -/
theorem resolveFrom_first_failure (remote : Remote) (apiKey : String) (channelIDs : List String) :
    ∀ (m k : Nat) (out : GoMap String) (log : List (ChannelsRequest × DoResult ChannelsResponse)) (b : Nat),
      k ≤ b → b < k + m → (chunkReply remote apiKey channelIDs (50 * b)).failure ≠ none →
      ∃ j e, k ≤ j ∧ j ≤ b ∧ (chunkReply remote apiKey channelIDs (50 * j)).failure = some e ∧
        (∀ i, k ≤ i → i < j → (chunkReply remote apiKey channelIDs (50 * i)).failure = none) ∧
        resolveFrom remote apiKey channelIDs m k out log =
          ⟨log ++ (List.range' k (j + 1 - k)).map (chunkExchange remote apiKey channelIDs),
            [], some e⟩ := by
  intro m
  induction m with
  | zero => intro k out log b h1 h2; omega
  | succ m ih =>
    intro k out log b h1 h2 hb
    cases hk : (chunkReply remote apiKey channelIDs (50 * k)).failure with
    | some e =>
      refine ⟨k, e, le_refl k, h1, hk, fun i hi1 hi2 => by omega, ?_⟩
      rw [resolveFrom_step_fail remote apiKey channelIDs m k out log e hk]
      have : k + 1 - k = 1 := by omega
      simp [this]
    | none =>
      have hkb : k ≠ b := by
        intro hEq
        subst hEq
        exact hb hk
      obtain ⟨j, e, hj1, hj2, hj3, hj4, hj5⟩ :=
        ih (k + 1) (batch remote apiKey out (chunkAt channelIDs (50 * k))).2.1
          (log ++ [chunkExchange remote apiKey channelIDs k]) b (by omega) (by omega) hb
      refine ⟨j, e, by omega, hj2, hj3, ?_, ?_⟩
      · intro i hi1 hi2
        by_cases hik : i = k
        · subst hik; exact hk
        · exact hj4 i (by omega) hi2
      · rw [resolveFrom_step_ok remote apiKey channelIDs m k out log hk, hj5]
        have : j + 1 - k = (j + 1 - (k + 1)) + 1 := by omega
        rw [this, List.range'_succ]
        simp

theorem chunkAt_eq_slice_min (channelIDs : List String) (k : Nat) :
    chunkAt channelIDs (50 * k) =
      slice channelIDs (50 * k) (min (50 * (k + 1)) channelIDs.length) := by
  unfold chunkAt
  congr 1
  split <;> omega

theorem slice_min_eq_take_drop (channelIDs : List String) (k : Nat) :
    slice channelIDs (50 * k) (min (50 * (k + 1)) channelIDs.length) =
      (channelIDs.drop (50 * k)).take 50 := by
  unfold slice
  apply List.ext_getElem?
  intro i
  simp only [List.getElem?_take, List.getElem?_drop]
  by_cases h1 : i < 50
  · by_cases h2 : i < min (50 * (k + 1)) channelIDs.length - 50 * k
    · simp [h1, h2]
    · have h3 : channelIDs.length ≤ 50 * k + i := by omega
      simp [h1, h2, List.getElem?_eq_none h3]
  · have h2 : ¬ i < min (50 * (k + 1)) channelIDs.length - 50 * k := by omega
    simp [h1, h2]

theorem flatten_chunks (channelIDs : List String) :
    ∀ (m k : Nat),
      ((List.range' k m).map (fun j => (channelIDs.drop (50 * j)).take 50)).flatten =
        (channelIDs.drop (50 * k)).take (50 * m) := by
  intro m
  induction m with
  | zero => intro k; simp
  | succ m ih =>
    intro k
    rw [List.range'_succ, List.map_cons, List.flatten_cons, ih (k + 1)]
    have h1 : 50 * (m + 1) = 50 + 50 * m := by ring
    have h2 : 50 * (k + 1) = 50 * k + 50 := by ring
    rw [h1, List.take_add, List.drop_drop, h2]

/-! ## Maps -/

theorem mapGet?_nil {β : Type} (u : String) : mapGet? ([] : GoMap β) u = none := rfl

theorem mapGet?_mapSet {β : Type} (m : GoMap β) (k : String) (v : β) (u : String) :
    mapGet? (mapSet m k v) u = if u = k then some v else mapGet? m u := by
  induction m with
  | nil =>
    by_cases h : u = k
    · simp [mapSet, mapGet?, h]
    · have h' : ¬ k = u := fun e => h e.symm
      simp [mapSet, mapGet?, h, h']
  | cons e rest ih =>
    obtain ⟨k', v'⟩ := e
    simp only [mapSet]
    by_cases hk : k' = k
    · subst hk
      by_cases h : u = k'
      · simp [mapGet?, h]
      · have h' : ¬ k' = u := fun e => h e.symm
        simp [mapGet?, h, h']
    · simp only [hk, if_false]
      by_cases h : k' = u
      · subst h
        simp [mapGet?, hk]
      · have : mapGet? ((k', v') :: mapSet rest k v) u = mapGet? (mapSet rest k v) u := by
          simp [mapGet?, h]
        rw [this, ih]
        simp [mapGet?, h]

theorem mem_mapKeys_mapSet {β : Type} (m : GoMap β) (k : String) (v : β) (u : String) :
    u ∈ mapKeys (mapSet m k v) ↔ u = k ∨ u ∈ mapKeys m := by
  induction m with
  | nil => simp [mapSet, mapKeys]
  | cons e rest ih =>
    obtain ⟨k', v'⟩ := e
    simp only [mapSet]
    by_cases hk : k' = k
    · subst hk
      simp [mapKeys]
    · simp only [hk, if_false]
      have ih' : u ∈ List.map Prod.fst (mapSet rest k v) ↔ u = k ∨ u ∈ List.map Prod.fst rest := ih
      simp only [mapKeys, List.map_cons, List.mem_cons, ih']
      tauto

theorem nodup_mapKeys_mapSet {β : Type} (m : GoMap β) (k : String) (v : β)
    (h : (mapKeys m).Nodup) : (mapKeys (mapSet m k v)).Nodup := by
  induction m with
  | nil => simp [mapSet, mapKeys]
  | cons e rest ih =>
    obtain ⟨k', v'⟩ := e
    simp only [mapSet]
    have h' : k' ∉ mapKeys rest ∧ (mapKeys rest).Nodup := by
      simpa [mapKeys] using h
    by_cases hk : k' = k
    · subst hk
      simpa [mapKeys] using h
    · simp only [hk, if_false]
      have hmem := mem_mapKeys_mapSet rest k v k'
      have hnd := ih h'.2
      have : k' ∉ mapKeys (mapSet rest k v) := by
        rw [hmem]
        rintro (h1 | h1)
        · exact hk h1
        · exact h'.1 h1
      show (k' :: mapKeys (mapSet rest k v)).Nodup
      exact List.nodup_cons.mpr ⟨this, hnd⟩

theorem foldl_mapSet_get?_of_not_mem (items : List ChannelItem) (u : String) :
    ∀ out : GoMap String, (∀ item ∈ items, item.Id ≠ u) →
      mapGet? (items.foldl (fun o item => mapSet o item.Id item.Snippet.Description) out) u =
        mapGet? out u := by
  induction items with
  | nil => intro out _; rfl
  | cons x xs ih =>
    intro out h
    rw [List.foldl_cons, ih _ (fun item hi => h item (List.mem_cons_of_mem _ hi)), mapGet?_mapSet]
    have : u ≠ x.Id := fun e => h x (List.mem_cons_self _ _) e.symm
    simp [this]

theorem foldl_mapSet_get?_of_mem (items : List ChannelItem) (u d : String) :
    ∀ out : GoMap String, (∀ item ∈ items, item.Id = u → item.Snippet.Description = d) →
      ((∃ item ∈ items, item.Id = u) ∨ mapGet? out u = some d) →
      mapGet? (items.foldl (fun o item => mapSet o item.Id item.Snippet.Description) out) u =
        some d := by
  induction items with
  | nil =>
    intro out _ h
    rcases h with ⟨item, hi, _⟩ | h
    · simp at hi
    · exact h
  | cons x xs ih =>
    intro out hall h
    rw [List.foldl_cons]
    apply ih _ (fun item hi => hall item (List.mem_cons_of_mem _ hi))
    by_cases hx : x.Id = u
    · right
      rw [mapGet?_mapSet, if_pos hx.symm, hall x (List.mem_cons_self _ _) hx]
    · rcases h with ⟨item, hi, hiu⟩ | h
      · rcases List.mem_cons.mp hi with rfl | hi'
        · exact absurd hiu hx
        · exact Or.inl ⟨item, hi', hiu⟩
      · right
        rw [mapGet?_mapSet, if_neg (fun e => hx e.symm)]
        exact h

/-! ## The identifier set -/

theorem specOwnerKey_eq (it : PlaylistItemWrap) : specOwnerKey it = uploaderID it := by
  unfold specOwnerKey uploaderID
  by_cases h : it.Snippet.VideoOwnerChannelId = "" <;> simp [h]

theorem channelSet_fold_inv (items : List PlaylistItemWrap) :
    ∀ init : GoMap Unit, (mapKeys init).Nodup → "" ∉ mapKeys init →
      (mapKeys (items.foldl (fun set it =>
          let uid := uploaderID it
          if uid ≠ "" then mapSet set uid () else set) init)).Nodup ∧
      "" ∉ mapKeys (items.foldl (fun set it =>
          let uid := uploaderID it
          if uid ≠ "" then mapSet set uid () else set) init) ∧
      ∀ u, u ∈ mapKeys (items.foldl (fun set it =>
          let uid := uploaderID it
          if uid ≠ "" then mapSet set uid () else set) init) ↔
        (u ∈ mapKeys init ∨ (u ≠ "" ∧ ∃ it ∈ items, uploaderID it = u)) := by
  induction items with
  | nil => intro init h1 h2; simp [h1, h2]
  | cons x xs ih =>
    intro init h1 h2
    rw [List.foldl_cons]
    by_cases hx : uploaderID x = ""
    · simp only [hx, ne_eq, not_true_eq_false, if_false]
      obtain ⟨a, b, c⟩ := ih init h1 h2
      refine ⟨a, b, fun u => ?_⟩
      rw [c u]
      constructor
      · rintro (h | ⟨hu, it, hit, he⟩)
        · exact Or.inl h
        · exact Or.inr ⟨hu, it, List.mem_cons_of_mem _ hit, he⟩
      · rintro (h | ⟨hu, it, hit, he⟩)
        · exact Or.inl h
        · rcases List.mem_cons.mp hit with rfl | hit'
          · exact absurd (he.symm.trans hx) hu
          · exact Or.inr ⟨hu, it, hit', he⟩
    · simp only [ne_eq, hx, not_false_eq_true, if_true]
      have hn : "" ∉ mapKeys (mapSet init (uploaderID x) ()) := by
        rw [mem_mapKeys_mapSet]
        rintro (h | h)
        · exact hx h.symm
        · exact h2 h
      obtain ⟨a, b, c⟩ := ih (mapSet init (uploaderID x) ())
        (nodup_mapKeys_mapSet init _ _ h1) hn
      refine ⟨a, b, fun u => ?_⟩
      rw [c u, mem_mapKeys_mapSet]
      constructor
      · rintro ((h | h) | ⟨hu, it, hit, he⟩)
        · exact Or.inr ⟨by rw [h]; exact hx, x, List.mem_cons_self _ _, h.symm⟩
        · exact Or.inl h
        · exact Or.inr ⟨hu, it, List.mem_cons_of_mem _ hit, he⟩
      · rintro (h | ⟨hu, it, hit, he⟩)
        · exact Or.inl (Or.inr h)
        · rcases List.mem_cons.mp hit with rfl | hit'
          · exact Or.inl (Or.inl he.symm)
          · exact Or.inr ⟨hu, it, hit', he⟩

theorem channelIDs_eq (ord : RangeOrder) (items : List PlaylistItemWrap) :
    channelIDs ord items = ord.visit (mapKeys (channelSet items)) := by
  simp [channelIDs, foldl_append_id]

theorem channelIDs_nodup (ord : RangeOrder) (items : List PlaylistItemWrap) :
    (channelIDs ord items).Nodup := by
  rw [channelIDs_eq]
  exact (ord.perm _).nodup_iff.mpr
    (channelSet_fold_inv items [] (by simp [mapKeys]) (by simp [mapKeys])).1

theorem mem_channelIDs (ord : RangeOrder) (items : List PlaylistItemWrap) (u : String) :
    u ∈ channelIDs ord items ↔ u ≠ "" ∧ ∃ it ∈ items, uploaderID it = u := by
  rw [channelIDs_eq, (ord.perm _).mem_iff]
  have h := (channelSet_fold_inv items [] (by simp [mapKeys]) (by simp [mapKeys])).2.2 u
  simpa [channelSet, mapKeys] using h

/-! ## The join -/

theorem joinVideos_eq_map (m : GoMap String) (items : List PlaylistItemWrap) :
    joinVideos m items = items.map (video m) := by
  simp [joinVideos, foldl_append_map]

theorem video_eq_spec (m : GoMap String) (it : PlaylistItemWrap) :
    video m it = specEnrichedItem m it := by
  have hkey : (if it.ContentDetails.VideoId = "" then
        match mapGet? it.Snippet.ResourceId "videoId" with
        | some v => v
        | none => it.ContentDetails.VideoId
      else it.ContentDetails.VideoId) = specItemKey it := by
    unfold specItemKey
    by_cases h : it.ContentDetails.VideoId = ""
    · cases hr : mapGet? it.Snippet.ResourceId "videoId" <;> simp [h]
    · simp [h]
  have hdesc : (if uploaderID it ≠ "" then mapGet m (uploaderID it) else "") =
      specOwnerDescription m (uploaderID it) := by
    unfold specOwnerDescription mapGet
    by_cases h : uploaderID it = ""
    · cases hr : mapGet? m (uploaderID it) <;> simp [h]
    · cases hr : mapGet? m (uploaderID it) <;> simp [h]
  simp only [video, specEnrichedItem, hkey, hdesc, specOwnerKey_eq]

theorem video_congr (m1 m2 : GoMap String) (it : PlaylistItemWrap)
    (h : uploaderID it ≠ "" → mapGet? m1 (uploaderID it) = mapGet? m2 (uploaderID it)) :
    video m1 it = video m2 it := by
  by_cases hu : uploaderID it = ""
  · simp [video, hu]
  · simp [video, hu, mapGet, h hu]

theorem video_nil (m : GoMap String) (it : PlaylistItemWrap) :
    video [] it = { video m it with ChannelDescription := "" } := by
  by_cases hu : uploaderID it = ""
  · simp [video, hu]
  · simp [video, hu, mapGet, mapGet?]

/-! ## Resolution against a fixed remote state -/

theorem chunkAt_eq_take_drop (channelIDs : List String) (k : Nat) :
    chunkAt channelIDs (50 * k) = (channelIDs.drop (50 * k)).take 50 := by
  rw [chunkAt_eq_slice_min, slice_min_eq_take_drop]

theorem resolveFrom_resolvesFrom (remote : Remote) (apiKey : String) (db : String → Option String)
    (channelIDs : List String) :
    ∀ (m k : Nat) (out : GoMap String) (log : List (ChannelsRequest × DoResult ChannelsResponse)),
      (∀ j, k ≤ j → j < k + m → AnswersFrom remote apiKey db (chunkAt channelIDs (50 * j))) →
      (∀ u, mapGet? out u = if u ∈ channelIDs.take (50 * k) then db u else none) →
      (resolveFrom remote apiKey channelIDs m k out log).err = none ∧
      ∀ u, mapGet? (resolveFrom remote apiKey channelIDs m k out log).out u =
        if u ∈ channelIDs.take (50 * (k + m)) then db u else none := by
  intro m
  induction m with
  | zero => intro k out log _ hinv; exact ⟨rfl, by simpa [resolveFrom] using hinv⟩
  | succ m ih =>
    intro k out log h hinv
    obtain ⟨cr, hcr, hsound, hcomplete⟩ := h k (le_refl k) (by omega)
    have hok : (chunkReply remote apiKey channelIDs (50 * k)).failure = none :=
      (failure_none_iff _).mpr ⟨cr, hcr⟩
    rw [resolveFrom_step_ok remote apiKey channelIDs m k out log hok,
      batch_out_ok remote apiKey out _ cr hcr]
    have hk : 50 * (k + (m + 1)) = 50 * (k + 1 + m) := by ring
    rw [hk]
    apply ih _ _ _ (fun j hj1 hj2 => h j (by omega) (by omega))
    intro u
    have htake : channelIDs.take (50 * (k + 1)) =
        channelIDs.take (50 * k) ++ chunkAt channelIDs (50 * k) := by
      rw [chunkAt_eq_take_drop, show 50 * (k + 1) = 50 * k + 50 by ring, List.take_add]
    rw [htake]
    by_cases hmem : u ∈ chunkAt channelIDs (50 * k)
    · cases hdb : db u with
      | none =>
        rw [foldl_mapSet_get?_of_not_mem cr.Items u out, hinv u]
        · simp [hdb]
        · intro item hi he
          have := (hsound item hi).2
          rw [he, hdb] at this
          cases this
      | some d =>
        rw [foldl_mapSet_get?_of_mem cr.Items u d out]
        · simp [hmem]
        · intro item hi he
          have := (hsound item hi).2
          rw [he, hdb] at this
          exact (Option.some.inj this).symm
        · exact Or.inl (hcomplete u hmem (by simp [hdb]))
    · rw [foldl_mapSet_get?_of_not_mem cr.Items u out, hinv u]
      · simp [hmem]
      · intro item hi he
        exact hmem (he ▸ (hsound item hi).1)

theorem resolver_resolvesFrom (remote : Remote) (apiKey : String) (db : String → Option String)
    (channelIDs : List String) (h : ResolvesFrom remote apiKey db channelIDs) :
    (fetchChannelDescriptions remote apiKey channelIDs).err = none ∧
    ∀ u, mapGet? (fetchChannelDescriptions remote apiKey channelIDs).out u =
      if u ∈ channelIDs then db u else none := by
  rw [resolver_eq]
  have := resolveFrom_resolvesFrom remote apiKey db channelIDs
    ((channelIDs.length + 49) / 50) 0 [] [] (fun j _ hj => h j (by omega))
    (by intro u; simp [mapGet?])
  have hlen : channelIDs.length ≤ 50 * (0 + (channelIDs.length + 49) / 50) := by omega
  rw [List.take_of_length_le hlen] at this
  exact this

theorem select_resolvesFrom (remote : Remote) (apiKey : String) (db : String → Option String)
    (fc : Bool) (channelIDs : List String)
    (h : fc = true → ResolvesFrom remote apiKey db channelIDs) (u : String) :
    mapGet? (selectChannelDescMap remote apiKey fc channelIDs).2.2 u =
      if fc = true ∧ u ∈ channelIDs then db u else none := by
  unfold selectChannelDescMap
  by_cases hc : fc = true ∧ channelIDs.length > 0
  · obtain ⟨herr, hout⟩ := resolver_resolvesFrom remote apiKey db channelIDs (h hc.1)
    rw [if_pos hc]
    simp only [herr, hout u]
    simp [hc.1]
  · rw [if_neg hc]
    have : ¬ (fc = true ∧ u ∈ channelIDs) := by
      rintro ⟨h1, h2⟩
      exact hc ⟨h1, List.length_pos_of_mem h2⟩
    simp [this, mapGet?]

/-! ## Listing: success and failure -/

theorem servedExchanges_append (remote : Remote) (apiKey pid : String)
    (pre : List PlaylistItemsResponse) (last : PlaylistItemsResponse) :
    ∀ (c c' : String), PagesServed remote apiKey pid c pre c' →
      servedExchanges apiKey pid c (pre ++ [last]) =
        servedExchanges apiKey pid c pre ++ [(pageRequest apiKey pid c', .resp ⟨200, some last⟩)] := by
  induction pre with
  | nil =>
    intro c c' h
    simp only [PagesServed] at h
    subst h
    rfl
  | cons p ps ih =>
    intro c c' h
    have := ih _ _ h.2.2
    rw [List.cons_append, servedExchanges, servedExchanges, this, List.cons_append]

theorem servedExchanges_length (apiKey pid : String) (pages : List PlaylistItemsResponse) :
    ∀ c, (servedExchanges apiKey pid c pages).length = pages.length := by
  induction pages with
  | nil => intro c; rfl
  | cons p ps ih => intro c; simp [servedExchanges, ih]

theorem servedExchanges_tokens (remote : Remote) (apiKey pid : String)
    (pre : List PlaylistItemsResponse) (last : PlaylistItemsResponse) :
    ∀ (c c' : String), PagesServed remote apiKey pid c pre c' →
      (servedExchanges apiKey pid c (pre ++ [last])).map (fun x => x.1.pageToken) =
        (if c ≠ "" then some c else none) :: pre.map (fun p => some p.NextPageToken) := by
  induction pre with
  | nil => intro c c' _; simp [servedExchanges, pageRequest]
  | cons p ps ih =>
    intro c c' h
    obtain ⟨_, h2, h3⟩ := h
    have := ih _ _ h3
    rw [List.cons_append, servedExchanges, List.map_cons, this]
    simp [pageRequest, h2]

theorem servedExchanges_replies (apiKey pid : String) (pages : List PlaylistItemsResponse) :
    ∀ c, (servedExchanges apiKey pid c pages).map (fun x => x.2) =
      pages.map (fun p => DoResult.resp ⟨200, some p⟩) := by
  induction pages with
  | nil => intro c; rfl
  | cons p ps ih => intro c; simp [servedExchanges, ih]

theorem lister_ok (remote : Remote) (apiKey pid : String) (pre : List PlaylistItemsResponse)
    (last : PlaylistItemsResponse) (c : String) (fuel : Nat)
    (hpre : PagesServed remote apiKey pid "" pre c)
    (hlast : remote.playlistItems (pageRequest apiKey pid c) = .resp ⟨200, some last⟩)
    (hend : last.NextPageToken = "")
    (hfuel : pre.length + 1 ≤ fuel) :
    fetchPlaylistItems remote fuel apiKey pid =
      some ⟨servedExchanges apiKey pid "" (pre ++ [last]),
        ((pre ++ [last]).map (fun p => p.Items)).flatten, none⟩ := by
  obtain ⟨extra, rfl⟩ : ∃ extra, fuel = pre.length + (extra + 1) := ⟨fuel - pre.length - 1, by omega⟩
  unfold fetchPlaylistItems
  rw [lister_chain remote apiKey pid pre "" c (extra + 1) [] [] hpre,
    lister_step_ok_last remote apiKey pid extra c _ _ last hlast hend,
    servedExchanges_append remote apiKey pid pre last "" c hpre]
  simp

theorem lister_fail (remote : Remote) (apiKey pid : String) (pre : List PlaylistItemsResponse)
    (c : String) (e : FetchError) (fuel : Nat)
    (hpre : PagesServed remote apiKey pid "" pre c)
    (hfail : (remote.playlistItems (pageRequest apiKey pid c)).failure = some e)
    (hfuel : pre.length + 1 ≤ fuel) :
    fetchPlaylistItems remote fuel apiKey pid =
      some ⟨servedExchanges apiKey pid "" pre ++
          [(pageRequest apiKey pid c, remote.playlistItems (pageRequest apiKey pid c))],
        [], some e⟩ := by
  obtain ⟨extra, rfl⟩ : ∃ extra, fuel = pre.length + (extra + 1) := ⟨fuel - pre.length - 1, by omega⟩
  unfold fetchPlaylistItems
  rw [lister_chain remote apiKey pid pre "" c (extra + 1) [] [] hpre,
    lister_step_fail remote apiKey pid extra c _ _ e hfail]
  simp

theorem sample_pagesServed :
    PagesServed sampleRemote "key" "PL" "" [samplePage1, samplePage2] "T2" :=
  ⟨rfl, by decide, rfl, by decide, rfl⟩

theorem sample_listing :
    fetchPlaylistItems sampleRemote 3 "key" "PL" =
      some ⟨servedExchanges "key" "PL" "" [samplePage1, samplePage2, samplePage3],
        samplePage1.Items ++ (samplePage2.Items ++ samplePage3.Items), none⟩ := by
  have := lister_ok sampleRemote "key" "PL" [samplePage1, samplePage2] samplePage3 "T2" 3
    sample_pagesServed rfl rfl (by decide)
  simpa using this

/-! ## The selection of the mapping, and the handler in full -/

theorem select_fst (remote : Remote) (apiKey : String) (fc : Bool) (ids : List String) :
    (selectChannelDescMap remote apiKey fc ids).1 =
      if fc = true ∧ ids.length > 0 then some ids else none := by
  unfold selectChannelDescMap
  by_cases hc : fc = true ∧ ids.length > 0
  · rw [if_pos hc, if_pos hc]
    cases he : (fetchChannelDescriptions remote apiKey ids).err <;> simp only [he]
  · rw [if_neg hc, if_neg hc]

theorem select_of_skip (remote : Remote) (apiKey : String) (fc : Bool) (ids : List String)
    (hc : ¬ (fc = true ∧ ids.length > 0)) :
    selectChannelDescMap remote apiKey fc ids = (none, [], []) := by
  unfold selectChannelDescMap
  rw [if_neg hc]

theorem select_of_failure (remote : Remote) (apiKey : String) (fc : Bool) (ids : List String)
    (e : FetchError) (h1 : fc = true) (h2 : ids.length > 0)
    (he : (fetchChannelDescriptions remote apiKey ids).err = some e) :
    selectChannelDescMap remote apiKey fc ids =
      (some ids, (fetchChannelDescriptions remote apiKey ids).exchanges, []) := by
  unfold selectChannelDescMap
  rw [if_pos ⟨h1, h2⟩]
  simp only [he]

/-- A run of the handler either stops before the resolver, without a
`ClusterRequest`, or went through a listing without error. -/
theorem handler_cases (remote : Remote) (apiKey : String) (ord : RangeOrder) (fuel : Nat)
    (r : HttpRequest) (run : HandlerRun) (h : handler remote apiKey ord fuel r = some run) :
    (run.resolverArg = none ∧ run.batchExchanges = [] ∧ ∀ creq, run.response ≠ .ok creq) ∨
    ∃ reqBody lr, r.Method = "POST" ∧ r.Body = some reqBody ∧ reqBody.PlaylistID ≠ "" ∧
      fetchPlaylistItems remote fuel apiKey reqBody.PlaylistID = some lr ∧ lr.err = none := by
  by_cases hm : r.Method = "POST"
  · cases hb : r.Body with
    | none =>
      simp [handler, hm, hb] at h
      subst h
      exact Or.inl ⟨rfl, rfl, fun creq hc => by cases hc⟩
    | some reqBody =>
      by_cases hid : reqBody.PlaylistID = ""
      · simp [handler, hm, hb, hid] at h
        subst h
        exact Or.inl ⟨rfl, rfl, fun creq hc => by cases hc⟩
      · cases hl : fetchPlaylistItems remote fuel apiKey reqBody.PlaylistID with
        | none => simp [handler, hm, hb, hid, hl] at h
        | some lr =>
          cases he : lr.err with
          | some e =>
            rw [handler_of_lister_error remote apiKey ord fuel r reqBody lr e hm hb hid hl he] at h
            simp only [Option.some.injEq] at h
            subst h
            exact Or.inl ⟨rfl, rfl, fun creq hc => by cases hc⟩
          | none => exact Or.inr ⟨reqBody, lr, hm, rfl, hid, hl, he⟩
  · simp [handler, hm] at h
    subst h
    exact Or.inl ⟨rfl, rfl, fun creq hc => by cases hc⟩

theorem select_snd (remote : Remote) (apiKey : String) (fc : Bool) (ids : List String) :
    (selectChannelDescMap remote apiKey fc ids).2.1 =
      if fc = true ∧ ids.length > 0 then (fetchChannelDescriptions remote apiKey ids).exchanges
      else [] := by
  unfold selectChannelDescMap
  by_cases hc : fc = true ∧ ids.length > 0
  · rw [if_pos hc, if_pos hc]
    cases he : (fetchChannelDescriptions remote apiKey ids).err <;> simp only [he]
  · rw [if_neg hc, if_neg hc]

theorem resolveFrom_log_le (remote : Remote) (apiKey : String) (channelIDs : List String) :
    ∀ (m k : Nat) (out : GoMap String) (log : List (ChannelsRequest × DoResult ChannelsResponse)),
      log.length ≤ (resolveFrom remote apiKey channelIDs m k out log).exchanges.length := by
  intro m
  induction m with
  | zero => intro k out log; simp [resolveFrom]
  | succ m ih =>
    intro k out log
    cases hk : (chunkReply remote apiKey channelIDs (50 * k)).failure with
    | some e =>
      rw [resolveFrom_step_fail remote apiKey channelIDs m k out log e hk]
      simp
    | none =>
      rw [resolveFrom_step_ok remote apiKey channelIDs m k out log hk]
      have := ih (k + 1) (batch remote apiKey out (chunkAt channelIDs (50 * k))).2.1
        (log ++ [chunkExchange remote apiKey channelIDs k])
      simp only [List.length_append, List.length_singleton] at this
      omega

/-- A call of `fetchChannelDescriptions` on a non-empty list issues a request. -/
theorem resolver_exchanges_ne_nil (remote : Remote) (apiKey : String) (channelIDs : List String)
    (h : channelIDs ≠ []) : (fetchChannelDescriptions remote apiKey channelIDs).exchanges ≠ [] := by
  have hpos : 0 < channelIDs.length := List.length_pos.mpr h
  obtain ⟨m, hm⟩ : ∃ m, (channelIDs.length + 49) / 50 = m + 1 :=
    ⟨(channelIDs.length + 49) / 50 - 1, by omega⟩
  rw [resolver_eq, hm]
  intro hnil
  cases hk : (chunkReply remote apiKey channelIDs (50 * 0)).failure with
  | some e =>
    rw [resolveFrom_step_fail remote apiKey channelIDs m 0 [] [] e hk] at hnil
    simp at hnil
  | none =>
    rw [resolveFrom_step_ok remote apiKey channelIDs m 0 [] [] hk] at hnil
    have := resolveFrom_log_le remote apiKey channelIDs m (0 + 1)
      (batch remote apiKey [] (chunkAt channelIDs (50 * 0))).2.1
      ([] ++ [chunkExchange remote apiKey channelIDs 0])
    rw [hnil] at this
    simp at this

theorem chunkAt_length (channelIDs : List String) (k : Nat) (hk : 50 * k < channelIDs.length) :
    1 ≤ (chunkAt channelIDs (50 * k)).length ∧ (chunkAt channelIDs (50 * k)).length ≤ 50 := by
  rw [chunkAt_eq_take_drop]
  simp only [List.length_take, List.length_drop]
  omega

theorem bounded_answersFrom (listing : PageRequest → DoResult PlaylistItemsResponse)
    (apiKey : String) (db : String → Option String) (ids : List String)
    (h1 : 1 ≤ ids.length) (h2 : ids.length ≤ 50) :
    AnswersFrom ⟨listing, boundedChannels db⟩ apiKey db ids := by
  have hc : ¬ (ids.length = 0 ∨ 50 < ids.length) := by omega
  refine ⟨⟨ids.filterMap (fun id => (db id).map (fun d => ⟨id, ⟨"", d⟩⟩))⟩, ?_, ?_, ?_⟩
  · simp only [boundedChannels, channelsRequest, if_neg hc]
  · intro item hi
    simp only [List.mem_filterMap, Option.map_eq_some'] at hi
    obtain ⟨id, hid, d, hd, rfl⟩ := hi
    exact ⟨hid, hd⟩
  · intro id hid hsome
    obtain ⟨d, hd⟩ := Option.isSome_iff_exists.mp hsome
    exact ⟨⟨id, ⟨"", d⟩⟩, by
      simp only [List.mem_filterMap, Option.map_eq_some']
      exact ⟨id, hid, d, hd, rfl⟩, rfl⟩

theorem bounded_resolvesFrom (listing : PageRequest → DoResult PlaylistItemsResponse)
    (apiKey : String) (db : String → Option String) (channelIDs : List String) :
    ResolvesFrom ⟨listing, boundedChannels db⟩ apiKey db channelIDs := by
  intro k hk
  obtain ⟨h1, h2⟩ := chunkAt_length channelIDs k hk
  exact bounded_answersFrom listing apiKey db _ h1 h2

/-- Against a resolve endpoint that answers from `db` the batches sent, the
video of every listed item carries the description of its owner in `db`. -/
theorem video_resolved (remote : Remote) (apiKey : String) (db : String → Option String)
    (ord : RangeOrder) (fc : Bool) (items : List PlaylistItemWrap)
    (h : fc = true → ResolvesFrom remote apiKey db (channelIDs ord items))
    (it : PlaylistItemWrap) (hit : it ∈ items) :
    video (selectChannelDescMap remote apiKey fc (channelIDs ord items)).2.2 it =
      resolvedVideo fc db it := by
  rw [video_eq_spec]
  have hlook := select_resolvesFrom remote apiKey db fc (channelIDs ord items) h (specOwnerKey it)
  simp only [specEnrichedItem, resolvedVideo, specOwnerDescription, hlook]
  congr 1
  by_cases hk : specOwnerKey it = ""
  · simp only [hk, ne_eq, not_true_eq_false, and_false, if_false]
    split <;> rfl
  · have hmem : specOwnerKey it ∈ channelIDs ord items := by
      rw [mem_channelIDs]
      exact ⟨hk, it, hit, (specOwnerKey_eq it).symm⟩
    by_cases hfc : fc = true
    · simp only [hfc, hmem, hk, ne_eq, not_false_eq_true, and_self, if_true]
      cases db (specOwnerKey it) <;> rfl
    · simp [hfc, hk]

theorem handler_resolved (remote : Remote) (apiKey : String) (db : String → Option String)
    (ord : RangeOrder) (fuel : Nat) (r : HttpRequest) (reqBody : fetchPlaylistReq) (lr : ListerRun)
    (hm : r.Method = "POST") (hb : r.Body = some reqBody) (hid : reqBody.PlaylistID ≠ "")
    (hl : fetchPlaylistItems remote fuel apiKey reqBody.PlaylistID = some lr)
    (he : lr.err = none)
    (h : fetchChannels reqBody = true → ResolvesFrom remote apiKey db (channelIDs ord lr.items)) :
    (handler remote apiKey ord fuel r).map (fun run => run.response) =
      some (.ok ⟨strategy reqBody, params reqBody,
        lr.items.map (resolvedVideo (fetchChannels reqBody) db)⟩) := by
  rw [handler_of_lister_ok remote apiKey ord fuel r reqBody lr hm hb hid hl he]
  simp only [Option.map_some', Option.some.injEq, HandlerResponse.ok.injEq,
    ClusterRequest.mk.injEq, true_and]
  rw [joinVideos_eq_map]
  exact List.map_congr_left
    (fun it hit => video_resolved remote apiKey db ord (fetchChannels reqBody) lr.items h it hit)

theorem wide_listing :
    fetchPlaylistItems wideRemote 1 "key" "PL" =
      some ⟨servedExchanges "key" "PL" "" [widePage], widePage.Items, none⟩ := by
  have := lister_ok wideRemote "key" "PL" [] widePage "" 1 rfl rfl rfl (by decide)
  simpa using this

/-! ## The claims -/

/-- C1. Item Lister: when the listing endpoint serves `k - 1` pages with a
next-cursor token, each requested with the token of the page before (the first
without a cursor), and then a `k`-th page without one, `fetchPlaylistItems`
(with fuel for `k` iterations) issues exactly these `k` page requests, returns
without error, and returns the items of the `k` pages concatenated in the order
received. -/
theorem lister_paginates_to_last_page (remote : Remote) (apiKey pid : String)
    (pre : List PlaylistItemsResponse) (last : PlaylistItemsResponse) (c : String) (fuel : Nat)
    (hpre : PagesServed remote apiKey pid "" pre c)
    (hlast : remote.playlistItems (pageRequest apiKey pid c) = .resp ⟨200, some last⟩)
    (hend : last.NextPageToken = "")
    (hfuel : pre.length + 1 ≤ fuel) :
    ∃ run, fetchPlaylistItems remote fuel apiKey pid = some run ∧
      run.err = none ∧
      run.exchanges.length = pre.length + 1 ∧
      run.exchanges.map (fun x => x.1.pageToken) =
        none :: pre.map (fun p => some p.NextPageToken) ∧
      (∀ x ∈ run.exchanges, x.1.playlistId = pid ∧ x.1.maxResults = "50") ∧
      run.exchanges.map (fun x => x.2) =
        (pre ++ [last]).map (fun p => DoResult.resp ⟨200, some p⟩) ∧
      run.items = ((pre ++ [last]).map (fun p => p.Items)).flatten := by
  refine ⟨_, lister_ok remote apiKey pid pre last c fuel hpre hlast hend hfuel, rfl, ?_, ?_, ?_, ?_, rfl⟩
  · simp [servedExchanges_length]
  · simpa using servedExchanges_tokens remote apiKey pid pre last "" c hpre
  · intro x hx
    have : ∀ (pages : List PlaylistItemsResponse) (c : String),
        ∀ x ∈ servedExchanges apiKey pid c pages, x.1.playlistId = pid ∧ x.1.maxResults = "50" := by
      intro pages
      induction pages with
      | nil => intro c x hx; simp [servedExchanges] at hx
      | cons p ps ih =>
        intro c x hx
        simp only [servedExchanges, List.mem_cons] at hx
        rcases hx with rfl | hx
        · exact ⟨rfl, rfl⟩
        · exact ih _ x hx
    exact this _ _ x hx
  · exact servedExchanges_replies apiKey pid _ ""

/-- Witness for C1: pages of 50, 50 and 7 items with cursors `T1` and `T2` give
exactly 3 requests and 107 items. -/
theorem lister_paginates_to_last_page_witness :
    ∃ run, fetchPlaylistItems sampleRemote 3 "key" "PL" = some run ∧
      run.err = none ∧ run.exchanges.length = 3 ∧
      run.exchanges.map (fun x => x.1.pageToken) = [none, some "T1", some "T2"] ∧
      run.items.length = 107 := by
  obtain ⟨run, h1, h2, h3, h4, _, _, h7⟩ :=
    lister_paginates_to_last_page sampleRemote "key" "PL" [samplePage1, samplePage2] samplePage3
      "T2" 3 ⟨rfl, by decide, rfl, by decide, rfl⟩ rfl rfl (by decide)
  refine ⟨run, h1, h2, h3, h4, ?_⟩
  rw [h7]
  simp [samplePage1, samplePage2, samplePage3]

/-- C2. For every run of the handler that answers with a `ClusterRequest`, the
number of videos in it is the sum of the item counts of the listing pages that
`fetchPlaylistItems` retrieved, whatever the enrichment did. -/
theorem output_length_eq_listed_total (remote : Remote) (apiKey : String) (ord : RangeOrder)
    (fuel : Nat) (r : HttpRequest) (run : HandlerRun) (creq : ClusterRequest)
    (h : handler remote apiKey ord fuel r = some run) (hok : run.response = .ok creq) :
    creq.Videos.length =
      ((retrievedPages run.pageExchanges).map (fun p => p.Items.length)).sum := by
  obtain ⟨reqBody, lr, hm, hb, hid, hl, he⟩ := handler_ok_inv remote apiKey ord fuel r run creq h hok
  rw [handler_of_lister_ok remote apiKey ord fuel r reqBody lr hm hb hid hl he] at h
  simp only [Option.some.injEq] at h
  subst h
  simp only [HandlerResponse.ok.injEq] at hok
  subst hok
  obtain ⟨tail, h1, h2⟩ := lister_items_invariant remote apiKey reqBody.PlaylistID fuel "" [] [] lr hl he
  simp only [List.nil_append] at h1 h2
  simp only [joinVideos_eq_map, List.length_map, h1, h2, List.length_flatten, List.map_map]
  rfl

/-- Witness for C2: the sample listing of 50, 50 and 7 items gives 107 videos. -/
theorem output_length_eq_listed_total_witness :
    ∃ run creq, handler sampleRemote "key" RangeOrder.insertion 3 (sampleRequest none none) =
        some run ∧ run.response = .ok creq ∧ creq.Videos.length = 107 := by
  have h := handler_of_lister_ok sampleRemote "key" RangeOrder.insertion 3 (sampleRequest none none)
    ⟨"PL", "", none, none⟩ _ rfl rfl (by decide) sample_listing rfl
  refine ⟨_, _, h, rfl, ?_⟩
  rw [output_length_eq_listed_total sampleRemote "key" RangeOrder.insertion 3
    (sampleRequest none none) _ _ h rfl]
  simp [retrievedPages_servedExchanges, samplePage1, samplePage2, samplePage3]

/-- C3. Join step: the videos are built from the listed items one by one, in
order; the `i`-th video is the enriched item of the `i`-th listed item as the
specification words it (item key with its fallback, owner key with its fallback,
title, playlist id and position copied, owner description looked up in the
mapping). -/
theorem join_is_pointwise_enrichment (m : GoMap String) (items : List PlaylistItemWrap) :
    joinVideos m items = items.map (specEnrichedItem m) ∧
    (joinVideos m items).length = items.length ∧
    ∀ i : Nat, (joinVideos m items)[i]? = (items[i]?).map (specEnrichedItem m) := by
  have h : joinVideos m items = items.map (specEnrichedItem m) := by
    rw [joinVideos_eq_map]
    exact List.map_congr_left (fun it _ => video_eq_spec m it)
  refine ⟨h, by simp [h], fun i => ?_⟩
  rw [h, List.getElem?_map]

/-- Witness for C3: the four sample items joined with a mapping that knows `UC1`. -/
theorem join_is_pointwise_enrichment_witness :
    joinVideos [("UC1", "first owner")] sampleItems =
      [ ⟨"v1", "a title", "UC1", "first owner", "PL", 0⟩,
        ⟨"v2", "a title", "UC1", "first owner", "PL", 1⟩,
        ⟨"v3", "a title", "", "", "PL", 2⟩,
        ⟨"v4", "a title", "UC0", "", "PL", 3⟩ ] := by
  rw [(join_is_pointwise_enrichment [("UC1", "first owner")] sampleItems).1]
  decide

/-- C4. When the listing endpoint serves `j - 1` pages with a next-cursor token
and then fails on the `j`-th request (transport error, status other than 200, or
a body that does not decode), `fetchPlaylistItems` returns that error with no
items after exactly `j` requests, and the handler answers with a failure without
calling `fetchChannelDescriptions` and without a `ClusterRequest`. -/
theorem lister_failure_is_fatal (remote : Remote) (apiKey : String) (ord : RangeOrder)
    (fuel : Nat) (r : HttpRequest) (reqBody : fetchPlaylistReq)
    (pre : List PlaylistItemsResponse) (c : String) (e : FetchError)
    (hm : r.Method = "POST") (hb : r.Body = some reqBody) (hid : reqBody.PlaylistID ≠ "")
    (hpre : PagesServed remote apiKey reqBody.PlaylistID "" pre c)
    (hfail : (remote.playlistItems (pageRequest apiKey reqBody.PlaylistID c)).failure = some e)
    (hfuel : pre.length + 1 ≤ fuel) :
    ∃ lr run, fetchPlaylistItems remote fuel apiKey reqBody.PlaylistID = some lr ∧
      lr.items = [] ∧ lr.err = some e ∧
      lr.exchanges = servedExchanges apiKey reqBody.PlaylistID "" pre ++
        [(pageRequest apiKey reqBody.PlaylistID c,
          remote.playlistItems (pageRequest apiKey reqBody.PlaylistID c))] ∧
      lr.exchanges.length = pre.length + 1 ∧
      handler remote apiKey ord fuel r = some run ∧
      run.pageExchanges = lr.exchanges ∧
      run.resolverArg = none ∧ run.batchExchanges = [] ∧
      run.response = .error 500 "failed fetch playlist" ∧
      ∀ creq, run.response ≠ .ok creq := by
  have hl := lister_fail remote apiKey reqBody.PlaylistID pre c e fuel hpre hfail hfuel
  refine ⟨_, _, hl, rfl, rfl, rfl, by simp [servedExchanges_length],
    handler_of_lister_error remote apiKey ord fuel r reqBody _ e hm hb hid hl rfl,
    rfl, rfl, rfl, rfl, ?_⟩
  intro creq hc
  cases hc

/-- Witness for C4: the first page arrives, the second request is answered 503. -/
theorem lister_failure_is_fatal_witness :
    ∃ lr run, fetchPlaylistItems sampleRemoteListingFails 2 "key" "PL" = some lr ∧
      lr.items = [] ∧ lr.err = some (.nonOK 503) ∧ lr.exchanges.length = 2 ∧
      handler sampleRemoteListingFails "key" RangeOrder.insertion 2 (sampleRequest none none) =
        some run ∧
      run.resolverArg = none ∧ run.batchExchanges = [] ∧
      run.response = .error 500 "failed fetch playlist" := by
  obtain ⟨lr, run, h1, h2, h3, _, h5, h6, _, h8, h9, h10, _⟩ :=
    lister_failure_is_fatal sampleRemoteListingFails "key" RangeOrder.insertion 2
      (sampleRequest none none) ⟨"PL", "", none, none⟩ [samplePage1] "T1" (.nonOK 503)
      rfl rfl (by decide) ⟨rfl, by decide, rfl⟩ rfl (by decide)
  exact ⟨lr, run, h1, h2, h3, h5, h6, h8, h9, h10⟩

/-- C6. The identifier list handed to the resolver has no duplicates and no
empty string, and its elements are exactly the non-empty owner keys of the
listed items; an owner key shared by several items occurs once, and an item
with an empty owner key contributes nothing. -/
theorem resolver_identifiers_unique_nonempty (ord : RangeOrder) (items : List PlaylistItemWrap) :
    (channelIDs ord items).Nodup ∧
    "" ∉ channelIDs ord items ∧
    (∀ u, u ∈ channelIDs ord items ↔ u ≠ "" ∧ ∃ it ∈ items, specOwnerKey it = u) ∧
    (∀ it ∈ items, specOwnerKey it ≠ "" → (channelIDs ord items).count (specOwnerKey it) = 1) := by
  have hmem : ∀ u, u ∈ channelIDs ord items ↔ u ≠ "" ∧ ∃ it ∈ items, specOwnerKey it = u := by
    intro u
    rw [mem_channelIDs]
    simp only [specOwnerKey_eq]
  refine ⟨channelIDs_nodup ord items, ?_, hmem, ?_⟩
  · intro h
    exact ((hmem "").mp h).1 rfl
  · intro it hit hne
    exact List.count_eq_one_of_mem (channelIDs_nodup ord items) ((hmem _).mpr ⟨hne, it, hit, rfl⟩)

/-- Witness for C6: the four sample items give the two identifiers `UC1`, `UC0`. -/
theorem resolver_identifiers_unique_nonempty_witness :
    (channelIDs RangeOrder.reversed sampleItems).Nodup ∧
    "" ∉ channelIDs RangeOrder.reversed sampleItems ∧
    channelIDs RangeOrder.reversed sampleItems = ["UC0", "UC1"] :=
  ⟨(resolver_identifiers_unique_nonempty RangeOrder.reversed sampleItems).1,
    (resolver_identifiers_unique_nonempty RangeOrder.reversed sampleItems).2.1, by decide⟩

/-- C7. Chunking: when every chunk request succeeds, `fetchChannelDescriptions`
on `n` identifiers returns without error after exactly `ceil(n/50)` requests;
the `i`-th request carries the slice from `50*i` to `min(50*(i+1), n)`, so every
request carries between 1 and 50 identifiers, every request but the last carries
50, and the requests concatenated in issue order give back the input list. -/
theorem resolver_chunks_by_fifty (remote : Remote) (apiKey : String) (ids : List String)
    (hok : ∀ k, 50 * k < ids.length → (chunkReply remote apiKey ids (50 * k)).failure = none) :
    (fetchChannelDescriptions remote apiKey ids).err = none ∧
    (fetchChannelDescriptions remote apiKey ids).exchanges.length = (ids.length + 49) / 50 ∧
    (fetchChannelDescriptions remote apiKey ids).exchanges.map (fun x => x.1.ids) =
      (List.range ((ids.length + 49) / 50)).map
        (fun i => slice ids (50 * i) (min (50 * (i + 1)) ids.length)) ∧
    (fetchChannelDescriptions remote apiKey ids).exchanges.map (fun x => x.1.ids.length) =
      (List.range ((ids.length + 49) / 50)).map (fun i => min (50 * (i + 1)) ids.length - 50 * i) ∧
    (∀ x ∈ (fetchChannelDescriptions remote apiKey ids).exchanges,
      1 ≤ x.1.ids.length ∧ x.1.ids.length ≤ 50) ∧
    (∀ i, i + 1 < (ids.length + 49) / 50 →
      ((fetchChannelDescriptions remote apiKey ids).exchanges.map (fun x => x.1.ids.length))[i]? =
        some 50) ∧
    ((fetchChannelDescriptions remote apiKey ids).exchanges.map (fun x => x.1.ids)).flatten = ids := by
  obtain ⟨herr, hex⟩ := resolveFrom_all_ok remote apiKey ids ((ids.length + 49) / 50) 0 [] []
    (fun j _ hj => hok j (by omega))
  rw [← resolver_eq] at herr hex
  rw [List.nil_append, ← List.range_eq_range'] at hex
  have hids : (fetchChannelDescriptions remote apiKey ids).exchanges.map (fun x => x.1.ids) =
      (List.range ((ids.length + 49) / 50)).map
        (fun i => slice ids (50 * i) (min (50 * (i + 1)) ids.length)) := by
    rw [hex, List.map_map]
    apply List.map_congr_left
    intro i _
    simp only [Function.comp, chunkExchange, channelsRequest, chunkAt_eq_slice_min]
  have hslice : ∀ i, (slice ids (50 * i) (min (50 * (i + 1)) ids.length)).length =
      min (50 * (i + 1)) ids.length - 50 * i := by
    intro i
    simp only [slice, List.length_take, List.length_drop]
    omega
  have hlen : (fetchChannelDescriptions remote apiKey ids).exchanges.map (fun x => x.1.ids.length) =
      (List.range ((ids.length + 49) / 50)).map
        (fun i => min (50 * (i + 1)) ids.length - 50 * i) := by
    have : (fetchChannelDescriptions remote apiKey ids).exchanges.map (fun x => x.1.ids.length) =
        ((fetchChannelDescriptions remote apiKey ids).exchanges.map (fun x => x.1.ids)).map
          List.length := by
      rw [List.map_map]; rfl
    rw [this, hids, List.map_map]
    apply List.map_congr_left
    intro i _
    exact hslice i
  refine ⟨herr, by rw [hex]; simp, hids, hlen, ?_, ?_, ?_⟩
  · intro x hx
    have hx' : x.1.ids.length ∈
        (fetchChannelDescriptions remote apiKey ids).exchanges.map (fun x => x.1.ids.length) :=
      List.mem_map.mpr ⟨x, hx, rfl⟩
    rw [hlen] at hx'
    obtain ⟨i, hi, hxi⟩ := List.mem_map.mp hx'
    have hi' := List.mem_range.mp hi
    omega
  · intro i hi
    rw [hlen, List.getElem?_map, List.getElem?_range (by omega)]
    simp only [Option.map_some']
    congr 1
    omega
  · rw [hids]
    have h1 : (List.range ((ids.length + 49) / 50)).map
        (fun i => slice ids (50 * i) (min (50 * (i + 1)) ids.length)) =
        (List.range' 0 ((ids.length + 49) / 50)).map (fun j => (ids.drop (50 * j)).take 50) := by
      rw [← List.range_eq_range']
      apply List.map_congr_left
      intro i _
      exact slice_min_eq_take_drop ids i
    rw [h1, flatten_chunks ids ((ids.length + 49) / 50) 0]
    simp only [Nat.mul_zero, List.drop_zero]
    exact List.take_of_length_le (by omega)

/-- Witness for C7: 120 identifiers give exactly 3 requests of sizes 50, 50, 20. -/
theorem resolver_chunks_by_fifty_witness :
    (fetchChannelDescriptions sampleRemote "key" sampleIDs120).err = none ∧
    (fetchChannelDescriptions sampleRemote "key" sampleIDs120).exchanges.length = 3 ∧
    (fetchChannelDescriptions sampleRemote "key" sampleIDs120).exchanges.map
      (fun x => x.1.ids.length) = [50, 50, 20] := by
  obtain ⟨h1, h2, _, h4, _⟩ :=
    resolver_chunks_by_fifty sampleRemote "key" sampleIDs120 (fun _ _ => rfl)
  have hlen : sampleIDs120.length = 120 := by simp [sampleIDs120]
  rw [hlen] at h2 h4
  exact ⟨h1, h2, h4⟩

/-- C5. When the listing succeeds, enrichment is requested and some chunk
request fails, `fetchChannelDescriptions` returns an error and a `nil` map after
stopping at the first failing chunk, and the handler still answers with a
`ClusterRequest` that has one video per listed item, in order, equal to the
normal join except that every channel description is empty. -/
theorem resolver_failure_degrades (remote : Remote) (apiKey : String) (ord : RangeOrder)
    (fuel : Nat) (r : HttpRequest) (reqBody : fetchPlaylistReq) (lr : ListerRun) (k : Nat)
    (hm : r.Method = "POST") (hb : r.Body = some reqBody) (hid : reqBody.PlaylistID ≠ "")
    (hl : fetchPlaylistItems remote fuel apiKey reqBody.PlaylistID = some lr)
    (hle : lr.err = none)
    (hfc : fetchChannels reqBody = true)
    (hk : 50 * k < (channelIDs ord lr.items).length)
    (hfail : (chunkReply remote apiKey (channelIDs ord lr.items) (50 * k)).failure ≠ none) :
    (fetchChannelDescriptions remote apiKey (channelIDs ord lr.items)).err ≠ none ∧
    (fetchChannelDescriptions remote apiKey (channelIDs ord lr.items)).out = [] ∧
    (∃ j, j ≤ k ∧
      (chunkReply remote apiKey (channelIDs ord lr.items) (50 * j)).failure ≠ none ∧
      (∀ i, i < j → (chunkReply remote apiKey (channelIDs ord lr.items) (50 * i)).failure = none) ∧
      (fetchChannelDescriptions remote apiKey (channelIDs ord lr.items)).exchanges =
        (List.range (j + 1)).map (chunkExchange remote apiKey (channelIDs ord lr.items))) ∧
    ∃ run creq, handler remote apiKey ord fuel r = some run ∧
      run.batchExchanges = (fetchChannelDescriptions remote apiKey (channelIDs ord lr.items)).exchanges ∧
      run.response = .ok creq ∧
      creq.Strategy = strategy reqBody ∧ creq.Params = params reqBody ∧
      creq.Videos.length = lr.items.length ∧
      (∀ m : GoMap String, creq.Videos =
        lr.items.map (fun it => { specEnrichedItem m it with ChannelDescription := "" })) ∧
      ∀ v ∈ creq.Videos, v.ChannelDescription = "" := by
  obtain ⟨j, e, _, hj2, hj3, hj4, hj5⟩ :=
    resolveFrom_first_failure remote apiKey (channelIDs ord lr.items)
      (((channelIDs ord lr.items).length + 49) / 50) 0 [] [] k (Nat.zero_le k) (by omega) hfail
  rw [← resolver_eq] at hj5
  have herr : (fetchChannelDescriptions remote apiKey (channelIDs ord lr.items)).err = some e := by
    rw [hj5]
  have hsel := select_of_failure remote apiKey (fetchChannels reqBody) (channelIDs ord lr.items) e
    hfc (by omega) herr
  have hrun := handler_of_lister_ok remote apiKey ord fuel r reqBody lr hm hb hid hl hle
  rw [hsel] at hrun
  have hvid : ∀ m : GoMap String, joinVideos [] lr.items =
      lr.items.map (fun it => { specEnrichedItem m it with ChannelDescription := "" }) := by
    intro m
    rw [joinVideos_eq_map]
    apply List.map_congr_left
    intro it _
    rw [video_nil m it, video_eq_spec]
  refine ⟨by rw [herr]; simp, by rw [hj5], ⟨j, hj2, by rw [hj3]; simp,
    fun i hi => hj4 i (Nat.zero_le i) hi, ?_⟩, _, _, hrun, rfl, rfl, rfl, rfl, ?_, hvid, ?_⟩
  · rw [hj5, List.range_eq_range']
    simp
  · simp [joinVideos_eq_map]
  · intro v hv
    rw [hvid []] at hv
    obtain ⟨it, _, rfl⟩ := List.mem_map.mp hv
    rfl

/-- Witness for C5: the sample listing with a resolve endpoint that times out. -/
theorem resolver_failure_degrades_witness :
    (fetchChannelDescriptions sampleRemoteResolverFails "key" ["UC1", "UC2"]).err ≠ none ∧
    (fetchChannelDescriptions sampleRemoteResolverFails "key" ["UC1", "UC2"]).out = [] ∧
    ∃ run creq, handler sampleRemoteResolverFails "key" RangeOrder.insertion 3
        (sampleRequest (some true) none) = some run ∧
      run.batchExchanges.length = 1 ∧
      run.response = .ok creq ∧ creq.Videos.length = 107 ∧
      ∀ v ∈ creq.Videos, v.ChannelDescription = "" := by
  have hids : channelIDs RangeOrder.insertion
      (samplePage1.Items ++ (samplePage2.Items ++ samplePage3.Items)) = ["UC1", "UC2"] := by
    decide
  have hl : fetchPlaylistItems sampleRemoteResolverFails 3 "key" "PL" =
      some ⟨servedExchanges "key" "PL" "" [samplePage1, samplePage2, samplePage3],
        samplePage1.Items ++ (samplePage2.Items ++ samplePage3.Items), none⟩ := sample_listing
  obtain ⟨h1, h2, ⟨j, hj, _, _, hj4⟩, run, creq, h3, h4, h5, _, _, h8, _, h10⟩ :=
    resolver_failure_degrades sampleRemoteResolverFails "key" RangeOrder.insertion 3
      (sampleRequest (some true) none) ⟨"PL", "", some true, none⟩ _ 0 rfl rfl (by decide) hl rfl rfl
      (by rw [hids]; decide) (by simp [chunkReply, sampleRemoteResolverFails, DoResult.failure])
  simp only [hids] at h1 h2 h4 hj4
  have hj0 : j = 0 := by omega
  subst hj0
  refine ⟨h1, h2, run, creq, h3, ?_, h5, ?_, h10⟩
  · rw [h4, hj4]; rfl
  · rw [h8]; simp [samplePage1, samplePage2, samplePage3]

/-- C8. The handler calls `fetchChannelDescriptions` only when enrichment is
requested and the identifier list is non-empty. With `fetchChannels` set to
`false` the resolver is never called, no resolve request is issued, and every
video has an empty channel description. A request without `fetchChannels`
behaves as one with `fetchChannels` set to `true`, and in both cases enrichment
is requested: when the listing ends without error and the identifier list is
non-empty, the resolver is called with that list and issues its requests. -/
theorem resolver_invoked_only_when_requested (remote : Remote) (apiKey : String)
    (ord : RangeOrder) (fuel : Nat) (r : HttpRequest) (run : HandlerRun)
    (h : handler remote apiKey ord fuel r = some run) :
    (∀ ids, run.resolverArg = some ids →
      ∃ reqBody lr, r.Body = some reqBody ∧ fetchChannels reqBody = true ∧
        fetchPlaylistItems remote fuel apiKey reqBody.PlaylistID = some lr ∧ lr.err = none ∧
        ids = channelIDs ord lr.items ∧ ids ≠ []) ∧
    (run.resolverArg = none → run.batchExchanges = []) ∧
    (∀ reqBody, r.Body = some reqBody → reqBody.FetchChannels = some false →
      run.resolverArg = none ∧ run.batchExchanges = [] ∧
      ∀ creq, run.response = .ok creq → ∀ v ∈ creq.Videos, v.ChannelDescription = "") ∧
    (∀ reqBody, r.Body = some reqBody → reqBody.FetchChannels = none →
      handler remote apiKey ord fuel ⟨r.Method, some { reqBody with FetchChannels := some true }⟩ =
        some run) ∧
    (∀ reqBody lr, r.Method = "POST" → r.Body = some reqBody → reqBody.PlaylistID ≠ "" →
      (reqBody.FetchChannels = none ∨ reqBody.FetchChannels = some true) →
      fetchPlaylistItems remote fuel apiKey reqBody.PlaylistID = some lr → lr.err = none →
      channelIDs ord lr.items ≠ [] →
      run.resolverArg = some (channelIDs ord lr.items) ∧
      run.batchExchanges =
        (fetchChannelDescriptions remote apiKey (channelIDs ord lr.items)).exchanges ∧
      run.batchExchanges ≠ []) := by
  refine ⟨?_, ?_, ?_, ?_, ?_⟩
  · intro ids hids
    rcases handler_cases remote apiKey ord fuel r run h with ⟨h1, _, _⟩ | ⟨reqBody, lr, hm, hb, hid, hl, he⟩
    · rw [h1] at hids; cases hids
    · rw [handler_of_lister_ok remote apiKey ord fuel r reqBody lr hm hb hid hl he] at h
      simp only [Option.some.injEq] at h
      subst h
      simp only [select_fst] at hids
      by_cases hc : fetchChannels reqBody = true ∧ (channelIDs ord lr.items).length > 0
      · rw [if_pos hc] at hids
        simp only [Option.some.injEq] at hids
        refine ⟨reqBody, lr, hb, hc.1, hl, he, hids.symm, ?_⟩
        rw [← hids]
        exact List.ne_nil_of_length_pos hc.2
      · rw [if_neg hc] at hids; cases hids
  · intro hnone
    rcases handler_cases remote apiKey ord fuel r run h with ⟨_, h2, _⟩ | ⟨reqBody, lr, hm, hb, hid, hl, he⟩
    · exact h2
    · rw [handler_of_lister_ok remote apiKey ord fuel r reqBody lr hm hb hid hl he] at h
      simp only [Option.some.injEq] at h
      subst h
      simp only [select_fst] at hnone
      by_cases hc : fetchChannels reqBody = true ∧ (channelIDs ord lr.items).length > 0
      · rw [if_pos hc] at hnone; cases hnone
      · simp only [select_of_skip remote apiKey _ _ hc]
  · intro reqBody hb hfalse
    have hfc : fetchChannels reqBody = false := by simp [fetchChannels, hfalse]
    rcases handler_cases remote apiKey ord fuel r run h with ⟨h1, h2, h3⟩ | ⟨reqBody', lr, hm, hb', hid, hl, he⟩
    · exact ⟨h1, h2, fun creq hc => absurd hc (h3 creq)⟩
    · have hEq : reqBody' = reqBody := Option.some.inj (hb'.symm.trans hb)
      subst hEq
      rw [handler_of_lister_ok remote apiKey ord fuel r reqBody' lr hm hb hid hl he] at h
      have hc : ¬ (fetchChannels reqBody' = true ∧ (channelIDs ord lr.items).length > 0) := by
        simp [hfc]
      rw [select_of_skip remote apiKey _ _ hc] at h
      simp only [Option.some.injEq] at h
      subst h
      refine ⟨rfl, rfl, ?_⟩
      intro creq hcreq v hv
      simp only [HandlerResponse.ok.injEq] at hcreq
      subst hcreq
      simp only [joinVideos_eq_map] at hv
      obtain ⟨it, _, rfl⟩ := List.mem_map.mp hv
      rw [video_nil [] it]
  · intro reqBody hb hnone
    rw [← h]
    obtain ⟨method, body⟩ := r
    simp only at hb
    subst hb
    obtain ⟨pid, st, fc, ps⟩ := reqBody
    simp only at hnone
    subst hnone
    rfl
  · intro reqBody lr hm hb hid hflag hl he hne
    have hfc : fetchChannels reqBody = true := by
      rcases hflag with hflag | hflag <;> simp [fetchChannels, hflag]
    have hc : fetchChannels reqBody = true ∧ (channelIDs ord lr.items).length > 0 :=
      ⟨hfc, List.length_pos.mpr hne⟩
    rw [handler_of_lister_ok remote apiKey ord fuel r reqBody lr hm hb hid hl he] at h
    simp only [Option.some.injEq] at h
    subst h
    refine ⟨?_, ?_, ?_⟩
    · simp only [select_fst, if_pos hc]
    · simp only [select_snd, if_pos hc]
    · simp only [select_snd, if_pos hc]
      exact resolver_exchanges_ne_nil remote apiKey _ hne

/-- Witness for C8: on the sample listing, with `fetchChannels` set to `false`
no resolve request is issued and all descriptions are empty; without
`fetchChannels` the resolver is called with the two owners of the listing and
issues a request, and the run is the one of the request with `true`. -/
theorem resolver_invoked_only_when_requested_witness :
    (∃ run creq, handler sampleRemote "key" RangeOrder.insertion 3
        (sampleRequest (some false) none) = some run ∧
      run.resolverArg = none ∧ run.batchExchanges = [] ∧ run.response = .ok creq ∧
      ∀ v ∈ creq.Videos, v.ChannelDescription = "") ∧
    (∃ run, handler sampleRemote "key" RangeOrder.insertion 3 (sampleRequest none none) =
        some run ∧
      run.resolverArg = some ["UC1", "UC2"] ∧ run.batchExchanges ≠ []) ∧
    handler sampleRemote "key" RangeOrder.insertion 3 (sampleRequest (some true) none) =
      handler sampleRemote "key" RangeOrder.insertion 3 (sampleRequest none none) := by
  have hids : channelIDs RangeOrder.insertion
      (samplePage1.Items ++ (samplePage2.Items ++ samplePage3.Items)) = ["UC1", "UC2"] := by
    decide
  have h1 := handler_of_lister_ok sampleRemote "key" RangeOrder.insertion 3
    (sampleRequest (some false) none) ⟨"PL", "", some false, none⟩ _ rfl rfl (by decide)
    sample_listing rfl
  have h2 := handler_of_lister_ok sampleRemote "key" RangeOrder.insertion 3
    (sampleRequest none none) ⟨"PL", "", none, none⟩ _ rfl rfl (by decide) sample_listing rfl
  obtain ⟨a, b, c⟩ := (resolver_invoked_only_when_requested sampleRemote "key"
    RangeOrder.insertion 3 (sampleRequest (some false) none) _ h1).2.2.1 _ rfl rfl
  obtain ⟨d, _, f⟩ := (resolver_invoked_only_when_requested sampleRemote "key"
    RangeOrder.insertion 3 (sampleRequest none none) _ h2).2.2.2.2 ⟨"PL", "", none, none⟩ _
    rfl rfl (by decide) (Or.inl rfl) sample_listing rfl (by rw [hids]; decide)
  refine ⟨⟨_, _, h1, a, b, rfl, c _ rfl⟩, ⟨_, h2, ?_, f⟩, ?_⟩
  · rw [d]
    exact congrArg some hids
  · rw [h2]
    exact (resolver_invoked_only_when_requested sampleRemote "key"
      RangeOrder.insertion 3 (sampleRequest none none) _ h2).2.2.2.1 _ rfl rfl

/-- C9. Parameters of the output: when the request has no `params`, they are
the two default weights; when the request supplies a mapping, the empty mapping
included, they are that mapping unchanged. -/
theorem params_default_only_when_absent (remote : Remote) (apiKey : String) (ord : RangeOrder)
    (fuel : Nat) (r : HttpRequest) (reqBody : fetchPlaylistReq) (run : HandlerRun)
    (creq : ClusterRequest)
    (hb : r.Body = some reqBody)
    (h : handler remote apiKey ord fuel r = some run) (hok : run.response = .ok creq) :
    (reqBody.Params = none →
      creq.Params = [("title_weight", "0.8"), ("channel_weight", "0.2")]) ∧
    (∀ m, reqBody.Params = some m → creq.Params = m) := by
  obtain ⟨reqBody', lr, hm, hb', hid, hl, he⟩ :=
    handler_ok_inv remote apiKey ord fuel r run creq h hok
  have hEq : reqBody' = reqBody := Option.some.inj (hb'.symm.trans hb)
  subst hEq
  rw [handler_of_lister_ok remote apiKey ord fuel r reqBody' lr hm hb hid hl he] at h
  simp only [Option.some.injEq] at h
  subst h
  simp only [HandlerResponse.ok.injEq] at hok
  subst hok
  constructor
  · intro hp
    simp [params, hp]
  · intro m hp
    simp [params, hp]

/-- Witness for C9: the sample request without `params` gets the default
weights, the sample request with the empty mapping keeps the empty mapping. -/
theorem params_default_only_when_absent_witness :
    (∃ run creq, handler sampleRemote "key" RangeOrder.insertion 3 (sampleRequest none none) =
        some run ∧ run.response = .ok creq ∧
      creq.Params = [("title_weight", "0.8"), ("channel_weight", "0.2")]) ∧
    (∃ run creq, handler sampleRemote "key" RangeOrder.insertion 3 (sampleRequest none (some [])) =
        some run ∧ run.response = .ok creq ∧ creq.Params = []) := by
  have h1 := handler_of_lister_ok sampleRemote "key" RangeOrder.insertion 3
    (sampleRequest none none) ⟨"PL", "", none, none⟩ _ rfl rfl (by decide) sample_listing rfl
  have h2 := handler_of_lister_ok sampleRemote "key" RangeOrder.insertion 3
    (sampleRequest none (some [])) ⟨"PL", "", none, some []⟩ _ rfl rfl (by decide)
    sample_listing rfl
  exact ⟨⟨_, _, h1, rfl, (params_default_only_when_absent sampleRemote "key" RangeOrder.insertion 3
      (sampleRequest none none) ⟨"PL", "", none, none⟩ _ _ rfl h1 rfl).1 rfl⟩,
    ⟨_, _, h2, rfl, (params_default_only_when_absent sampleRemote "key" RangeOrder.insertion 3
      (sampleRequest none (some [])) ⟨"PL", "", none, some []⟩ _ _ rfl h2 rfl).2 [] rfl⟩⟩

/-- C10. Determinism: against a remote in a fixed state, whose resolve endpoint
answers every batch that is sent to it with status 200 and descriptors of
exactly the recognised identifiers of that batch, the answer of the handler to
a request does not depend on the order in which the identifier set is
enumerated (and so not on the partition into chunks); two calls with the same
request give the same answer. Nothing is assumed of the endpoint on requests
that are not sent (empty or oversized batches, other identifiers). -/
theorem output_independent_of_range_order (remote : Remote) (apiKey : String)
    (db : String → Option String) (ord1 ord2 : RangeOrder) (fuel : Nat) (r : HttpRequest)
    (h1 : BatchesResolved remote apiKey db ord1 fuel r)
    (h2 : BatchesResolved remote apiKey db ord2 fuel r) :
    (handler remote apiKey ord1 fuel r).map (fun run => run.response) =
      (handler remote apiKey ord2 fuel r).map (fun run => run.response) := by
  by_cases hm : r.Method = "POST"
  · cases hb : r.Body with
    | none => simp [handler, hm, hb]
    | some reqBody =>
      by_cases hid : reqBody.PlaylistID = ""
      · simp [handler, hm, hb, hid]
      · cases hl : fetchPlaylistItems remote fuel apiKey reqBody.PlaylistID with
        | none => simp [handler, hm, hb, hid, hl]
        | some lr =>
          cases he : lr.err with
          | some e =>
            rw [handler_of_lister_error remote apiKey ord1 fuel r reqBody lr e hm hb hid hl he,
              handler_of_lister_error remote apiKey ord2 fuel r reqBody lr e hm hb hid hl he]
          | none =>
            rw [handler_resolved remote apiKey db ord1 fuel r reqBody lr hm hb hid hl he
                (h1 reqBody lr hm hb hid hl he),
              handler_resolved remote apiKey db ord2 fuel r reqBody lr hm hb hid hl he
                (h2 reqBody lr hm hb hid hl he)]
  · simp [handler, hm]

/-- Witness for C10: sixty owners and a resolve endpoint that rejects empty
batches and batches of more than 50 identifiers. Enumerating the identifier
set in insertion order and in reverse order gives two different lists of sixty
identifiers (two chunks each) and the same answer, whose videos carry the
descriptions of the remote state. -/
theorem output_independent_of_range_order_witness :
    (channelIDs RangeOrder.insertion widePage.Items).length = 60 ∧
    channelIDs RangeOrder.insertion widePage.Items ≠
      channelIDs RangeOrder.reversed widePage.Items ∧
    (handler wideRemote "key" RangeOrder.insertion 1 (sampleRequest none none)).map
        (fun run => run.response) =
      (handler wideRemote "key" RangeOrder.reversed 1 (sampleRequest none none)).map
        (fun run => run.response) ∧
    (handler wideRemote "key" RangeOrder.reversed 1 (sampleRequest none none)).map
        (fun run => run.response) =
      some (.ok ⟨"hdbscan", [("title_weight", "0.8"), ("channel_weight", "0.2")],
        widePage.Items.map (resolvedVideo true wideDb)⟩) ∧
    ((widePage.Items.map (resolvedVideo true wideDb)).filter
      (fun v => decide (v.ChannelDescription = "known owner"))).length = 30 :=
  ⟨by decide, by decide,
    output_independent_of_range_order wideRemote "key" wideDb RangeOrder.insertion
      RangeOrder.reversed 1 (sampleRequest none none)
      (fun _ lr _ _ _ _ _ _ => bounded_resolvesFrom wideListing "key" wideDb _)
      (fun _ lr _ _ _ _ _ _ => bounded_resolvesFrom wideListing "key" wideDb _),
    handler_resolved wideRemote "key" wideDb RangeOrder.reversed 1 (sampleRequest none none)
      ⟨"PL", "", none, none⟩ _ rfl rfl (by decide) wide_listing rfl
      (fun _ => bounded_resolvesFrom wideListing "key" wideDb _),
    by decide⟩

end YtPlaylist
